import Mathlib

/-!
# ScaniZard: the Terraform policy scanner

A shallow embedding of `scanners/terraform.go` and of `types/types.go`, followed by
theorems about the rule engine, the expression resolver and the block walk.

Conventions of the embedding
* Go strings are Lean strings, read as sequences of runes.
* Go slices are lists; a nil slice and an empty slice are both the empty list.
* Go `int` is `Int`.
* A run-time panic of the Go program is the result `none` of a function whose
  result is an `Option`; such a function returns what the Go function returns when
  its result is `some`.  The program has no `recover`, so a panic in one block ends
  the whole scan.
* The syntax tree of the HCL library, the cty values inside literals and the JSON
  decoder of the Go standard library are not part of the repository.  The tree is
  an inductive type with the node kinds the scanner distinguishes, a cty value is
  one of the values that the parser puts into a literal node, and the JSON decoder
  is an argument of the functions that call it.
* The parser of the HCL library yields a quoted string without interpolation as a
  template whose one part is the string literal, and yields a literal node on its
  own only for a number, `true`, `false` and `null`.  The sample inputs follow these
  shapes; a few samples marked as built by hand do not.
* `jsonUnmarshal` is a model of that decoder on the types of the scanner, written
  after the documentation of `encoding/json`; it calls the method
  `strOrList.UnmarshalJSON` of the repository.  It is used where a theorem speaks of
  the decoding of a given text.
-/

namespace ScaniZard

/-! ## Go runtime functions on strings -/

/-- Go `unicode.IsSpace`: the white space runes of Unicode. -/
def isSpace (c : Char) : Bool :=
  let n := c.toNat
  n == 0x09 || n == 0x0A || n == 0x0B || n == 0x0C || n == 0x0D || n == 0x20 ||
  n == 0x85 || n == 0xA0 || n == 0x1680 || (0x2000 ≤ n && n ≤ 0x200A) ||
  n == 0x2028 || n == 0x2029 || n == 0x202F || n == 0x205F || n == 0x3000

/-- Go `strings.TrimSpace`: drop leading and trailing white space. -/
def TrimSpace (s : String) : String :=
  ⟨((s.data.dropWhile isSpace).reverse.dropWhile isSpace).reverse⟩

/-- Lower-case mapping of one rune.  The letters A to Z are mapped as Go
`unicode.ToLower` maps them; the case tables for runes beyond ASCII belong to the Go
runtime and are not reproduced, such runes are left as they are.  The scanner only
compares a lower-cased string with strings made of `*` and `:`, which no rune is
mapped to or from. -/
def toLowerRune (c : Char) : Char :=
  if 65 ≤ c.toNat ∧ c.toNat ≤ 90 then Char.ofNat (c.toNat + 32) else c

/-- Go `strings.ToLower`. -/
def ToLower (s : String) : String :=
  ⟨s.data.map toLowerRune⟩

/-- Go `strings.HasSuffix`. -/
def HasSuffix (s suf : String) : Bool :=
  decide (suf.data.length ≤ s.data.length) &&
    (s.data.drop (s.data.length - suf.data.length) == suf.data)

/-- Go `strings.EqualFold`, with the simple case folding restricted to the letters
A to Z.  The scanner only compares with the text `Allow`, whose letters have no
folding partner outside ASCII, so on those calls the result is the one of Go. -/
def EqualFold (s t : String) : Bool :=
  s.data.map toLowerRune == t.data.map toLowerRune

/-- Go `fmt.Sprintf("%v", xs)` for a slice of strings: the elements separated by
blanks, inside square brackets. -/
def sprintStrings (xs : List String) : String :=
  "[" ++ " ".intercalate xs ++ "]"

/-! ## types.Finding and source positions -/

/-- The record `types.Finding`. -/
structure Finding where
  Scanner : String
  Rule : String
  Severity : String
  File : String
  Line : Int
  Column : Int
  BlockRef : String
  StatementID : String
  Details : String
  deriving DecidableEq, Repr

/-- The record `hcl.Pos`. -/
structure Pos where
  Line : Int
  Column : Int
  Byte : Int
  deriving DecidableEq, Repr

/-- The record `hcl.Range`. -/
structure Range where
  Filename : String
  Start : Pos
  End : Pos
  deriving DecidableEq, Repr

/-! ## Policy JSON types and helpers -/

/-- A decoded JSON value, as held by `interface{}` after decoding. -/
inductive JSONValue where
  | null
  | bool (b : Bool)
  | number (text : String)
  | string (s : String)
  | array (items : List JSONValue)
  | object (members : List (String × JSONValue))

/-- The type `strOrList`: a slice of strings. -/
abbrev strOrList := List String

/-- The record `policyStmt`. -/
structure policyStmt where
  Sid : String
  Effect : String
  Action : strOrList
  NotAction : strOrList
  Resource : strOrList
  NotResource : strOrList
  Condition : List (String × JSONValue)

/-- The record `policyDoc`. -/
structure policyDoc where
  Version : String
  Statement : List policyStmt

/-- The function `hasWildcard`. -/
def hasWildcard : List String → Bool
  | [] => false
  | v :: vals =>
    let v := TrimSpace (ToLower v)
    if v = "*" ∨ v = "*:*" ∨ HasSuffix v ":*" = true then true else hasWildcard vals

/-- The function `hasStar`. -/
def hasStar : List String → Bool
  | [] => false
  | v :: vals => if TrimSpace v = "*" then true else hasStar vals

/-- The function `nonEmpty`. -/
def nonEmpty (s fallback : String) : String :=
  if TrimSpace s = "" then fallback else s

/-! ## The HCL syntax tree, as the scanner observes it -/

/-- The cty values that the parser puts into a literal node: a string (only as a
part of a template), a number, a boolean, or the null value of unknown type. -/
inductive Value where
  | string (s : String)
  | number (text : String)
  | bool (b : Bool)
  | null
  deriving DecidableEq, Repr

/-- The test `Val.Type().IsPrimitiveType()`: the types string, number and bool are
primitive; the type of the null literal is not. -/
def Value.IsPrimitiveType : Value → Bool
  | .string _ => true
  | .number _ => true
  | .bool _ => true
  | .null => false

/-- The method `Val.AsString()` of the cty library: the string of a string value;
on every other value the method panics. -/
def Value.AsString : Value → Option String
  | .string s => some s
  | .number _ => none
  | .bool _ => none
  | .null => none

/-- Expression nodes of `hclsyntax`.  The scanner distinguishes literals, templates,
template wrappers and tuple constructors by type switch; function calls, scope
traversals (variable references) and object constructors stand for the node kinds
that every type switch of the scanner sends to its default case. -/
inductive Expression where
  | LiteralValueExpr (Val : Value)
  | TemplateExpr (Parts : List Expression)
  | TemplateWrapExpr (Wrapped : Expression)
  | TupleConsExpr (Exprs : List Expression)
  | FunctionCallExpr (Name : String) (Args : List Expression)
  | ScopeTraversalExpr (Traversal : List String)
  | ObjectConsExpr (Items : List (Expression × Expression))

/-- The record `hclsyntax.Attribute`; `Range()` returns `SrcRange`. -/
structure Attribute where
  Name : String
  Expr : Expression
  SrcRange : Range

mutual
/-- The record `hclsyntax.Body`: the attribute map, as a list of entries read by
key, and the nested blocks in source order. -/
inductive Body where
  | mk (Attributes : List (String × Attribute)) (Blocks : List Block)
/-- The record `hclsyntax.Block`.  `Typ` is the field `Type`, and `DefRange` is the
value of the method `DefRange()`, which the library computes from the header. -/
inductive Block where
  | mk (Typ : String) (Labels : List String) (Body : Body) (DefRange : Range)
end

/-- Field `Attributes` of a body. -/
def Body.Attributes : Body → List (String × Attribute)
  | .mk attrs _ => attrs

/-- Field `Blocks` of a body. -/
def Body.Blocks : Body → List Block
  | .mk _ blocks => blocks

/-- Field `Type` of a block. -/
def Block.Typ : Block → String
  | .mk t _ _ _ => t

/-- Field `Labels` of a block. -/
def Block.Labels : Block → List String
  | .mk _ ls _ _ => ls

/-- Field `Body` of a block. -/
def Block.Body : Block → Body
  | .mk _ _ b _ => b

/-- Method `DefRange()` of a block. -/
def Block.DefRange : Block → Range
  | .mk _ _ _ r => r

/-- The map read `block.Body.Attributes[name]` with its presence flag. -/
def Block.attr (b : Block) (name : String) : Option Attribute :=
  b.Body.Attributes.lookup name

/-! ## HCL helpers for data blocks -/

/-- The loop of `exprToStrings` over the elements of a tuple constructor; `out` is
the slice built so far.  An element that is not accepted ends the loop with
`nil, false`; `AsString` on a primitive literal that is not a string panics. -/
def tupleToStrings : List Expression → List String → Option (List String × Bool)
  | [], out => some (out, true)
  | ex :: rest, out =>
    match ex with
    | .LiteralValueExpr exVal =>
      if exVal.IsPrimitiveType then
        match exVal.AsString with
        | some s => tupleToStrings rest (out ++ [s])
        | none => none
      else some ([], false)
    | .TemplateExpr parts =>
      match parts with
      | [part] =>
        match part with
        | .TemplateWrapExpr wrapped =>
          match wrapped with
          | .LiteralValueExpr lv =>
            if lv.IsPrimitiveType then
              match lv.AsString with
              | some s => tupleToStrings rest (out ++ [s])
              | none => none
            else some ([], false)
          | _ => some ([], false)
        | _ => some ([], false)
      | _ => some ([], false)
    | _ => some ([], false)

/-- The function `exprToStrings`, returning `vals` and `ok`, or panicking. -/
def exprToStrings (expr : Expression) : Option (List String × Bool) :=
  match expr with
  | .TemplateExpr parts =>
    match parts with
    | [part] =>
      match part with
      | .TemplateWrapExpr wrapped =>
        match wrapped with
        | .LiteralValueExpr lv =>
          if lv.IsPrimitiveType then
            match lv.AsString with
            | some s => some ([s], true)
            | none => none
          else some ([], false)
        | _ => some ([], false)
      | _ => some ([], false)
    | _ => some ([], false)
  | .LiteralValueExpr v =>
    if v.IsPrimitiveType then
      match v.AsString with
      | some s => some ([s], true)
      | none => none
    else some ([], false)
  | .TupleConsExpr exprs => tupleToStrings exprs []
  | _ => some ([], false)

/-- The function `getStatementID`, returning the identifier and its presence flag,
or panicking.  The template case calls `AsString` without a test of the type. -/
def getStatementID (block : Block) : Option (String × Bool) :=
  match block.attr "sid" with
  | none => some ("", false)
  | some attr =>
    match attr.Expr with
    | .LiteralValueExpr lv =>
      if lv.IsPrimitiveType then
        match lv.AsString with
        | some s => some (s, true)
        | none => none
      else some ("", false)
    | .TemplateExpr parts =>
      match parts with
      | [part] =>
        match part with
        | .TemplateWrapExpr wrapped =>
          match wrapped with
          | .LiteralValueExpr lv =>
            match lv.AsString with
            | some s => some (s, true)
            | none => none
          | _ => some ("", false)
        | _ => some ("", false)
      | _ => some ("", false)
    | _ => some ("", false)

/-- The function `tryExtractStaticString`; the empty string is returned when the
expression is not accepted, and `AsString` on a primitive literal that is not a
string panics. -/
def tryExtractStaticString (expr : Expression) : Option String :=
  match expr with
  | .LiteralValueExpr v => if v.IsPrimitiveType then v.AsString else some ""
  | .TemplateExpr parts =>
    match parts with
    | [part] =>
      match part with
      | .TemplateWrapExpr wrapped =>
        match wrapped with
        | .LiteralValueExpr lv => if lv.IsPrimitiveType then lv.AsString else some ""
        | _ => some ""
      | _ => some ""
    | _ => some ""
  | _ => some ""

/-! ## The rule engine on decoded JSON policies -/

/-- The findings that one iteration of the loop of `analyzeJSONPolicy` appends to
`out`, for the statement `st` at index `i` of the decoded document. -/
def policyStmtFindings (file blockRef : String) (rng : Range) (i : Nat)
    (st : policyStmt) : List Finding :=
  if EqualFold st.Effect "Allow" then
    (if hasWildcard st.Action then
      [{ Scanner := "terraform"
         Rule := "allow_action_wildcard"
         Severity := "HIGH"
         File := file
         Line := rng.Start.Line
         Column := rng.Start.Column
         BlockRef := blockRef
         StatementID := nonEmpty st.Sid ("#" ++ toString (i + 1))
         Details := "Effect \"Allow\" with Action wildcard (" ++ sprintStrings st.Action ++ ")" }]
    else []) ++
    (if hasStar st.Resource then
      [{ Scanner := "terraform"
         Rule := "allow_resource_star"
         Severity := "HIGH"
         File := file
         Line := rng.Start.Line
         Column := rng.Start.Column
         BlockRef := blockRef
         StatementID := nonEmpty st.Sid ("#" ++ toString (i + 1))
         Details := "Effect \"Allow\" with Resource \"*\"" }]
    else [])
  else []

/-- The loop `for i, st := range doc.Statement` of `analyzeJSONPolicy`, from index
`i` on, with the slice `out` built so far. -/
def policyStmtLoop (file blockRef : String) (rng : Range) :
    Nat → List policyStmt → List Finding → List Finding
  | _, [], out => out
  | i, st :: rest, out =>
    policyStmtLoop file blockRef rng (i + 1) rest
      (out ++ policyStmtFindings file blockRef rng i st)

/-- The finding that `analyzeJSONPolicy` returns when decoding fails with the
error text `err`. -/
def parseErrorFinding (file blockRef : String) (rng : Range) (err : String) : Finding :=
  { Scanner := "terraform"
    Rule := "parse_error"
    Severity := "HIGH"
    File := file
    Line := rng.Start.Line
    Column := rng.Start.Column
    BlockRef := blockRef
    StatementID := ""
    Details := "Could not parse JSON policy (possibly dynamic/interpolated): " ++ err }

/-- The function `analyzeJSONPolicy`.  `unmarshal` is `json.Unmarshal` into a
`policyDoc`: the decoded document, or the text of the error. -/
def analyzeJSONPolicy (unmarshal : String → Except String policyDoc)
    (raw file blockRef : String) (rng : Range) : List Finding :=
  let raw := TrimSpace raw
  if raw = "" then []
  else
    match unmarshal raw with
    | .error err => [parseErrorFinding file blockRef rng err]
    | .ok doc => policyStmtLoop file blockRef rng 0 doc.Statement []

/-! ## The rule engine on `aws_iam_policy_document` data blocks -/

/-- The value of the local variable `effect` of `analyzeIAMPolicyDocumentBlock` for
the statement block `st`, or the panic of `exprToStrings`. -/
def stmtEffect (st : Block) : Option String :=
  match st.attr "effect" with
  | some attr =>
    match exprToStrings attr.Expr with
    | none => none
    | some (v :: _, true) => some (TrimSpace v)
    | some _ => some ""
  | none => some ""

/-- The value of one of the local variables `actions`, `notActions`, `resources`,
`notResources` of `analyzeIAMPolicyDocumentBlock`: the resolved list of the named
attribute, empty when the attribute is absent or `exprToStrings` does not accept it;
or the panic of `exprToStrings`. -/
def stmtStrings (st : Block) (name : String) : Option (List String) :=
  match st.attr name with
  | some attr =>
    match exprToStrings attr.Expr with
    | none => none
    | some (vals, true) => some vals
    | some _ => some []
  | none => some []

/-- The value of the local variable `unknown` of `analyzeIAMPolicyDocumentBlock`,
from the values of `actions` and `resources`. -/
def stmtUnknown (st : Block) (actions resources : List String) : Bool :=
  let unknown := false
  let unknown :=
    if (st.attr "actions").isSome && actions.length == 0 then true
    else unknown
  let unknown :=
    if (st.attr "resources").isSome && resources.length == 0 then true
    else unknown
  unknown

/-- The findings that one iteration of the loop of `analyzeIAMPolicyDocumentBlock`
appends to `out` after the local variables `effect`, `actions`, `notActions`,
`resources`, `notResources` and `stId` have got their values. -/
def statementAppends (file blockRef : String) (st : Block) (effect : String)
    (actions notActions resources notResources : List String) (stId : String) :
    List Finding :=
  let unknown := stmtUnknown st actions resources
  (if EqualFold effect "Allow" then
    (if hasWildcard actions then
      [{ Scanner := "terraform"
         Rule := "allow_action_wildcard"
         Severity := "high"
         File := file
         Line := st.DefRange.Start.Line
         Column := st.DefRange.Start.Column
         BlockRef := blockRef
         StatementID := stId
         Details := "" }]
    else []) ++
    (if hasStar resources then
      [{ Scanner := "terraform"
         Rule := "allow_resource_star"
         Severity := "high"
         File := file
         Line := st.DefRange.Start.Line
         Column := st.DefRange.Start.Column
         BlockRef := blockRef
         StatementID := stId
         Details := "Effect \"Allow\" with Resource \"*\"" }]
    else [])
  else []) ++
  (if unknown || decide (notActions.length > 0) || decide (notResources.length > 0) then
    [{ Scanner := "terraform"
       Rule := "needs_manual_review"
       Severity := "high"
       File := file
       Line := st.DefRange.Start.Line
       Column := st.DefRange.Start.Column
       BlockRef := blockRef
       StatementID := stId
       Details := "Uses dynamic values, not_actions, or not_resources; review for permissiveness." }]
  else [])

/-- The findings that one iteration of the loop of `analyzeIAMPolicyDocumentBlock`
appends to `out`, for the nested block `st`; `none` when the iteration panics in
`exprToStrings` or in `getStatementID`. -/
def statementFindings (file blockRef : String) (st : Block) : Option (List Finding) :=
  if st.Typ ≠ "statement" then some []
  else
    (stmtEffect st).bind fun effect =>
    (stmtStrings st "actions").bind fun actions =>
    (stmtStrings st "not_actions").bind fun notActions =>
    (stmtStrings st "resources").bind fun resources =>
    (stmtStrings st "not_resources").bind fun notResources =>
    (getStatementID st).bind fun sid =>
    some (statementAppends file blockRef st effect actions notActions resources notResources
      (if sid.2 then sid.1 else ""))

/-- The loop `for _, st := range b.Body.Blocks` of
`analyzeIAMPolicyDocumentBlock`, with the slice `out` built so far. -/
def statementLoop (file blockRef : String) :
    List Block → List Finding → Option (List Finding)
  | [], out => some out
  | st :: rest, out =>
    match statementFindings file blockRef st with
    | none => none
    | some fs => statementLoop file blockRef rest (out ++ fs)

/-- The function `analyzeIAMPolicyDocumentBlock`. -/
def analyzeIAMPolicyDocumentBlock (b : Block) (file blockRef : String) :
    Option (List Finding) :=
  statementLoop file blockRef b.Body.Blocks []

/-! ## Main HCL traversal -/

/-- The map `resourceTypesWithPolicyJSON`; a key that is not in the map reads as
`false`. -/
def resourceTypesWithPolicyJSON (rType : String) : Bool :=
  rType = "aws_iam_policy" || rType = "aws_iam_role_policy" ||
  rType = "aws_iam_user_policy" || rType = "aws_iam_group_policy" ||
  rType = "aws_s3_bucket_policy"

/-- The finding that `ScanTerraform` appends for a `policy` attribute that
`tryExtractStaticString` does not accept. -/
def unknownDynamicPolicyFinding (path blockRef : String) (rng : Range) : Finding :=
  { Scanner := "terraform"
    Rule := "unknown_dynamic_policy"
    Severity := "HIGH"
    File := path
    Line := rng.Start.Line
    Column := rng.Start.Column
    BlockRef := blockRef
    StatementID := ""
    Details := "Policy attribute is dynamic (jsonencode/interpolation). Could not statically analyze." }

/-- The findings that one iteration of the loop `for _, blk := range body.Blocks`
of `ScanTerraform` appends to `findings`, for the top-level block `blk` of the file
`path`; `none` when the iteration panics. -/
def blockFindings (unmarshal : String → Except String policyDoc) (path : String)
    (blk : Block) : Option (List Finding) :=
  if blk.Typ = "resource" then
    match blk.Labels with
    | rType :: rName :: _ =>
      let blockRef := "resource." ++ rType ++ "." ++ rName
      if resourceTypesWithPolicyJSON rType then
        match blk.attr "policy" with
        | some attr =>
          match tryExtractStaticString attr.Expr with
          | none => none
          | some lit =>
            if lit ≠ "" then
              some (analyzeJSONPolicy unmarshal lit path blockRef attr.SrcRange)
            else some [unknownDynamicPolicyFinding path blockRef attr.SrcRange]
        | none => some []
      else some []
    | _ => some []
  else if blk.Typ = "data" then
    match blk.Labels with
    | dType :: dName :: _ =>
      let blockRef := "data." ++ dType ++ "." ++ dName
      if dType = "aws_iam_policy_document" then
        analyzeIAMPolicyDocumentBlock blk path blockRef
      else some []
    | _ => some []
  else some []

/-- The loop over the top-level blocks of one parsed file, with the slice
`findings` built so far. -/
def blockLoop (unmarshal : String → Except String policyDoc) (path : String) :
    List Block → List Finding → Option (List Finding)
  | [], findings => some findings
  | blk :: rest, findings =>
    match blockFindings unmarshal path blk with
    | none => none
    | some fs => blockLoop unmarshal path rest (findings ++ fs)

/-- The walk of `ScanTerraform` over the files that the directory walk yields and
the parser accepts, each given by its path and its syntax body: the value of the
local variable `findings` when the walk ends, or `none` when the walk panics. -/
def walkFindings (unmarshal : String → Except String policyDoc) :
    List (String × Body) → List Finding → Option (List Finding)
  | [], findings => some findings
  | (path, body) :: rest, findings =>
    match blockLoop unmarshal path body.Blocks findings with
    | none => none
    | some collected => walkFindings unmarshal rest collected

/-- The function `ScanTerraform` on the parsed files of the folder.  The walk fills
the local variable `findings`; both return statements of the function are
`return nil`. -/
def ScanTerraform (unmarshal : String → Except String policyDoc)
    (files : List (String × Body)) : Option (List Finding) :=
  match walkFindings unmarshal files [] with
  | none => none
  | some _findings => some []

/-- The block reference that `ScanTerraform` computes for a top-level block and
passes to the analysis of the block: `resource.<type>.<name>` or
`data.<type>.<name>` from the first two labels, for a `resource` or `data` block with
at least two labels; other blocks get none. -/
def blockRef (blk : Block) : Option String :=
  if blk.Typ = "resource" then
    match blk.Labels with
    | rType :: rName :: _ => some ("resource." ++ rType ++ "." ++ rName)
    | _ => none
  else if blk.Typ = "data" then
    match blk.Labels with
    | dType :: dName :: _ => some ("data." ++ dType ++ "." ++ dName)
    | _ => none
  else none

/-! ## The JSON decoder of the Go library, on the types of the scanner -/

/-- White space of the JSON grammar. -/
def jsonSpace (c : Char) : Bool :=
  c = ' ' || c = '\t' || c = '\r' || c = '\n'

/-- Value of a hexadecimal digit. -/
def hexDigit (c : Char) : Option Nat :=
  if '0' ≤ c ∧ c ≤ '9' then some (c.toNat - 48)
  else if 'a' ≤ c ∧ c ≤ 'f' then some (c.toNat - 87)
  else if 'A' ≤ c ∧ c ≤ 'F' then some (c.toNat - 55)
  else none

/-- Four hexadecimal digits at the head of the input, as in `\uXXXX`. -/
def readHex4 : List Char → Option (Nat × List Char)
  | a :: b :: c :: d :: rest =>
    match hexDigit a, hexDigit b, hexDigit c, hexDigit d with
    | some x, some y, some z, some w => some (((x * 16 + y) * 16 + z) * 16 + w, rest)
    | _, _, _, _ => none
  | _ => none

/-- The rest of a JSON string after its opening quote: the decoded text and the
input after the closing quote.  `acc` holds the runes read so far, last first.  A
`\u` escape of a surrogate half that is not followed by its other half gives the
replacement rune U+FFFD, as in the Go library. -/
def readString : Nat → List Char → List Char → Option (String × List Char)
  | 0, _, _ => none
  | fuel + 1, acc, cs =>
    match cs with
    | [] => none
    | '"' :: rest => some (⟨acc.reverse⟩, rest)
    | '\\' :: rest =>
      match rest with
      | '"' :: r => readString fuel ('"' :: acc) r
      | '\\' :: r => readString fuel ('\\' :: acc) r
      | '/' :: r => readString fuel ('/' :: acc) r
      | 'b' :: r => readString fuel (Char.ofNat 8 :: acc) r
      | 'f' :: r => readString fuel (Char.ofNat 12 :: acc) r
      | 'n' :: r => readString fuel ('\n' :: acc) r
      | 'r' :: r => readString fuel ('\r' :: acc) r
      | 't' :: r => readString fuel ('\t' :: acc) r
      | 'u' :: r =>
        match readHex4 r with
        | none => none
        | some (hi, r2) =>
          if 0xD800 ≤ hi ∧ hi < 0xDC00 then
            match r2 with
            | '\\' :: 'u' :: r3 =>
              match readHex4 r3 with
              | some (lo, r4) =>
                if 0xDC00 ≤ lo ∧ lo < 0xE000 then
                  readString fuel
                    (Char.ofNat (0x10000 + (hi - 0xD800) * 0x400 + (lo - 0xDC00)) :: acc) r4
                else readString fuel (Char.ofNat 0xFFFD :: acc) r2
              | none => readString fuel (Char.ofNat 0xFFFD :: acc) r2
            | _ => readString fuel (Char.ofNat 0xFFFD :: acc) r2
          else if 0xDC00 ≤ hi ∧ hi < 0xE000 then readString fuel (Char.ofNat 0xFFFD :: acc) r2
          else readString fuel (Char.ofNat hi :: acc) r2
      | _ => none
    | c :: rest => if c.toNat < 0x20 then none else readString fuel (c :: acc) rest

/-- A run of decimal digits at the head of the input, and the input after it. -/
def readDigits : List Char → List Char × List Char
  | c :: cs =>
    if '0' ≤ c ∧ c ≤ '9' then ((readDigits cs).1.cons c, (readDigits cs).2) else ([], c :: cs)
  | [] => ([], [])

/-- A JSON number at the head of the input: its text and the input after it. -/
def readNumber (cs : List Char) : Option (String × List Char) :=
  let (sign, cs1) := match cs with
    | '-' :: r => (['-'], r)
    | _ => ([], cs)
  let intPart : Option (List Char × List Char) := match cs1 with
    | '0' :: r => some (['0'], r)
    | c :: r => if '1' ≤ c ∧ c ≤ '9' then some (c :: (readDigits r).1, (readDigits r).2) else none
    | [] => none
  match intPart with
  | none => none
  | some (ds, cs2) =>
    let frac : Option (List Char × List Char) := match cs2 with
      | '.' :: r =>
        if (readDigits r).1 = [] then none else some ('.' :: (readDigits r).1, (readDigits r).2)
      | _ => some ([], cs2)
    match frac with
    | none => none
    | some (fs, cs3) =>
      let exp : Option (List Char × List Char) := match cs3 with
        | e :: r =>
          if e = 'e' ∨ e = 'E' then
            let (sg, r1) := match r with
              | '+' :: r1 => (['+'], r1)
              | '-' :: r1 => (['-'], r1)
              | _ => ([], r)
            if (readDigits r1).1 = [] then none
            else some (e :: sg ++ (readDigits r1).1, (readDigits r1).2)
          else some ([], cs3)
        | [] => some ([], cs3)
      match exp with
      | none => none
      | some (es, cs4) => some (⟨sign ++ ds ++ fs ++ es⟩, cs4)

mutual
/-- One JSON value at the head of the input, after optional white space, and the
input after it; `none` for a text that is not JSON. -/
def parseValue : Nat → List Char → Option (JSONValue × List Char)
  | 0, _ => none
  | fuel + 1, cs =>
    match cs.dropWhile jsonSpace with
    | '"' :: rest =>
      match readString (rest.length + 1) [] rest with
      | some (s, r) => some (.string s, r)
      | none => none
    | '[' :: rest =>
      match rest.dropWhile jsonSpace with
      | ']' :: r => some (.array [], r)
      | _ => parseItems fuel [] rest
    | '\x7b' :: rest =>
      match rest.dropWhile jsonSpace with
      | '\x7d' :: r => some (.object [], r)
      | _ => parseMembers fuel [] rest
    | 't' :: 'r' :: 'u' :: 'e' :: r => some (.bool true, r)
    | 'f' :: 'a' :: 'l' :: 's' :: 'e' :: r => some (.bool false, r)
    | 'n' :: 'u' :: 'l' :: 'l' :: r => some (.null, r)
    | other =>
      match readNumber other with
      | some (text, r) => some (.number text, r)
      | none => none
/-- The elements of a JSON array after its opening bracket; `acc` holds the elements
read so far, last first. -/
def parseItems : Nat → List JSONValue → List Char → Option (JSONValue × List Char)
  | 0, _, _ => none
  | fuel + 1, acc, cs =>
    match parseValue fuel cs with
    | none => none
    | some (v, r) =>
      match r.dropWhile jsonSpace with
      | ',' :: r2 => parseItems fuel (v :: acc) r2
      | ']' :: r2 => some (.array (v :: acc).reverse, r2)
      | _ => none
/-- The members of a JSON object after its opening brace; `acc` holds the members
read so far, last first. -/
def parseMembers : Nat → List (String × JSONValue) → List Char →
    Option (JSONValue × List Char)
  | 0, _, _ => none
  | fuel + 1, acc, cs =>
    match cs.dropWhile jsonSpace with
    | '"' :: rest =>
      match readString (rest.length + 1) [] rest with
      | none => none
      | some (key, r) =>
        match r.dropWhile jsonSpace with
        | ':' :: r1 =>
          match parseValue fuel r1 with
          | none => none
          | some (v, r2) =>
            match r2.dropWhile jsonSpace with
            | ',' :: r3 => parseMembers fuel ((key, v) :: acc) r3
            | '\x7d' :: r3 => some (.object ((key, v) :: acc).reverse, r3)
            | _ => none
        | _ => none
    | _ => none
end

/-- The JSON value that a text denotes, when the whole text is one JSON value with
optional white space around it.  The nesting limit of the Go library, ten thousand
levels, is not modelled. -/
def parseJSON (text : String) : Option JSONValue :=
  match parseValue (2 * text.data.length + 2) text.data with
  | some (v, rest) => if rest.dropWhile jsonSpace = [] then some v else none
  | none => none

/-- The word the Go library uses for the kind of a JSON value in a type error. -/
def jsonKind : JSONValue → String
  | .null => "null"
  | .bool _ => "bool"
  | .number _ => "number"
  | .string _ => "string"
  | .array _ => "array"
  | .object _ => "object"

/-- Go `json.Unmarshal` of one JSON value into a variable of type `string` that
holds `cur`: a JSON string sets the variable, a JSON null leaves it as it is without
an error, every other value is a type error. -/
def unmarshalString (j : JSONValue) (cur : String) : Except String String :=
  match j with
  | .string s => .ok s
  | .null => .ok cur
  | other => .error ("json: cannot unmarshal " ++ jsonKind other ++ " into Go value of type string")

/-- The elements of a JSON array decoded into the elements of a fresh `[]string`.
A null element leaves the zero string; the first type error is the error of the
whole. -/
def unmarshalStringElems : List JSONValue → Except String (List String)
  | [] => .ok []
  | j :: rest =>
    match unmarshalString j "" with
    | .error e => .error e
    | .ok s =>
      match unmarshalStringElems rest with
      | .error e => .error e
      | .ok ss => .ok (s :: ss)

/-- Go `json.Unmarshal` of one JSON value into a fresh variable of type `[]string`:
an array is decoded element by element, a JSON null gives the nil slice, every other
value is a type error. -/
def unmarshalStrings (j : JSONValue) : Except String (List String) :=
  match j with
  | .array items => unmarshalStringElems items
  | .null => .ok []
  | other =>
    .error ("json: cannot unmarshal " ++ jsonKind other ++ " into Go value of type []string")

/-- The method `(*strOrList).UnmarshalJSON`, on the JSON value that the bytes `b`
denote: the value of `*s` after the call and the error returned, `none` for nil. -/
def strOrList.UnmarshalJSON (s : strOrList) (b : JSONValue) : strOrList × Option String :=
  match unmarshalString b "" with
  | .ok one => ([one], none)
  | .error _ =>
    match unmarshalStrings b with
    | .ok many => (many, none)
    | .error _ => (s, none)

/-- The text of the type error of the Go library for a JSON value of the wrong kind
for a struct field: `structName` is the struct that holds the field, `path` the path
of the field from the root struct, `goType` the Go type of the target. -/
def fieldTypeError (j : JSONValue) (structName path goType : String) : String :=
  "json: cannot unmarshal " ++ jsonKind j ++ " into Go struct field " ++ structName ++
    "." ++ path ++ " of type " ++ goType

/-- Decoding of one JSON value into a struct field of type `string` that holds
`cur`: a JSON string sets the field, a JSON null leaves it, every other value is a
type error that names the field. -/
def unmarshalStringField (j : JSONValue) (cur structName path : String) :
    Except String String :=
  match j with
  | .string s => .ok s
  | .null => .ok cur
  | other => .error (fieldTypeError other structName path "string")

/-- Folding of one rune of an object key, for the comparison with the name of a
struct field: letters a to z are folded with A to Z, and the long s (U+017F) and the
Kelvin sign (U+212A), the two runes outside ASCII that Unicode folds with an ASCII
letter, are folded with S and K. -/
def foldNameRune (c : Char) : Char :=
  if c.toNat = 0x17F then 'S'
  else if c.toNat = 0x212A then 'K'
  else if 97 ≤ c.toNat ∧ c.toNat ≤ 122 then Char.ofNat (c.toNat - 32)
  else c

/-- Whether an object key selects the struct field with the given name: the Go
library takes the field whose name equals the key, or else equals it under case
folding. -/
def keyMatches (key name : String) : Bool :=
  key.data.map foldNameRune == name.data.map foldNameRune

/-- Store of a key in a decoded `map[string]interface{}`: a repeated key keeps the
later value. -/
def mapStore (m : List (String × JSONValue)) (key : String) (v : JSONValue) :
    List (String × JSONValue) :=
  m.filter (fun entry => entry.1 ≠ key) ++ [(key, v)]

/-- The first error saved by the decoder is kept; later ones are dropped. -/
def saveError (saved : Option String) (e : String) : Option String :=
  match saved with
  | some first => some first
  | none => some e

/-- Decoding of one member of a JSON object into a `policyStmt`, with the error
saved so far.  A member whose key selects no field is skipped; a value of the wrong
kind for a `string` or map field saves a type error and leaves the field; the four
`strOrList` fields go through `UnmarshalJSON`. -/
def decodeStmtMember (acc : policyStmt × Option String) (member : String × JSONValue) :
    policyStmt × Option String :=
  let st := acc.1
  let saved := acc.2
  let key := member.1
  let v := member.2
  if keyMatches key "Sid" then
    match unmarshalStringField v st.Sid "policyStmt" "Statement.Sid" with
    | .ok s => ({ st with Sid := s }, saved)
    | .error e => (st, saveError saved e)
  else if keyMatches key "Effect" then
    match unmarshalStringField v st.Effect "policyStmt" "Statement.Effect" with
    | .ok s => ({ st with Effect := s }, saved)
    | .error e => (st, saveError saved e)
  else if keyMatches key "Action" then
    ({ st with Action := (strOrList.UnmarshalJSON st.Action v).1 }, saved)
  else if keyMatches key "NotAction" then
    ({ st with NotAction := (strOrList.UnmarshalJSON st.NotAction v).1 }, saved)
  else if keyMatches key "Resource" then
    ({ st with Resource := (strOrList.UnmarshalJSON st.Resource v).1 }, saved)
  else if keyMatches key "NotResource" then
    ({ st with NotResource := (strOrList.UnmarshalJSON st.NotResource v).1 }, saved)
  else if keyMatches key "Condition" then
    match v with
    | .object members =>
      let stored := members.foldl (fun m entry => mapStore m entry.1 entry.2) st.Condition
      ({ st with Condition := stored }, saved)
    | .null => ({ st with Condition := [] }, saved)
    | other =>
      (st, saveError saved
        (fieldTypeError other "policyStmt" "Statement.Condition" "map[string]interface {}"))
  else (st, saved)

/-- The zero value of `policyStmt`. -/
def zeroStmt : policyStmt :=
  { Sid := "", Effect := "", Action := [], NotAction := [], Resource := [],
    NotResource := [], Condition := [] }

/-- Decoding of the elements of a JSON array into the elements of the `Statement`
slice, with the error saved so far.  `backing` holds the elements of the backing
array of the slice from the current index on: the library decodes an element of the
JSON array into the statement that is already at its index, and into a zero
statement when there is none.  An object is decoded member by member, a null leaves
the statement, every other value saves a type error and leaves the statement. -/
def decodeStmts : List JSONValue → List policyStmt → Option String →
    List policyStmt × Option String
  | [], _, saved => ([], saved)
  | j :: rest, backing, saved =>
    let cur := backing.headD zeroStmt
    let first : policyStmt × Option String :=
      match j with
      | .object members => members.foldl decodeStmtMember (cur, saved)
      | .null => (cur, saved)
      | other =>
        (cur, saveError saved
          (fieldTypeError other "policyDoc" "Statement" "scanners.policyStmt"))
    let others := decodeStmts rest backing.tail first.2
    (first.1 :: others.1, others.2)

/-- The state of the decoding of a `policyDoc`: the document, the elements of the
backing array of its `Statement` slice (those of the slice first, then the ones left
behind when the slice was cut shorter), and the error saved so far. -/
structure docState where
  doc : policyDoc
  backing : List policyStmt
  saved : Option String

/-- Decoding of one member of a JSON object into a `policyDoc`.  A `Statement` array
is decoded into the elements of the slice that are already there, as the library
does when a key is repeated; an empty array and a null give a slice without backing
array. -/
def decodeDocMember (acc : docState) (member : String × JSONValue) : docState :=
  let key := member.1
  let v := member.2
  if keyMatches key "Version" then
    match unmarshalStringField v acc.doc.Version "policyDoc" "Version" with
    | .ok s => { acc with doc := { acc.doc with Version := s } }
    | .error e => { acc with saved := saveError acc.saved e }
  else if keyMatches key "Statement" then
    match v with
    | .array [] => { acc with doc := { acc.doc with Statement := [] }, backing := [] }
    | .array items =>
      let decoded := decodeStmts items acc.backing acc.saved
      { doc := { acc.doc with Statement := decoded.1 }
        backing := decoded.1 ++ acc.backing.drop decoded.1.length
        saved := decoded.2 }
    | .null => { acc with doc := { acc.doc with Statement := [] }, backing := [] }
    | other =>
      let e := fieldTypeError other "policyDoc" "Statement" "[]scanners.policyStmt"
      { acc with saved := saveError acc.saved e }
  else acc

/-- Go `json.Unmarshal([]byte(text), &doc)` for a zero `doc` of type `policyDoc`:
the decoded document, or the text of the error.  A text that is not JSON is
rejected before anything is decoded, and the wording of that syntax error is not
reproduced.  A type error met while decoding is saved, decoding goes on, and the
first saved error is returned at the end, worded as the library words it. -/
def jsonUnmarshal (text : String) : Except String policyDoc :=
  match parseJSON text with
  | none => .error "invalid JSON text"
  | some j =>
    let start : docState :=
      { doc := { Version := "", Statement := [] }, backing := [], saved := none }
    let decoded : docState :=
      match j with
      | .object members => members.foldl decodeDocMember start
      | .null => start
      | other =>
        let e := "json: cannot unmarshal " ++ jsonKind other ++
          " into Go value of type scanners.policyDoc"
        { start with saved := some e }
    match decoded.saved with
    | some e => .error e
    | none => .ok decoded.doc

/-! ## Sample inputs

Concrete syntax trees, policy texts and decoder results at which the theorems below
are instantiated. -/

/-- A source range starting at line 3, column 3. -/
def sampleRange : Range :=
  { Filename := "main.tf"
    Start := { Line := 3, Column := 3, Byte := 40 }
    End := { Line := 3, Column := 30, Byte := 67 } }

/-- A string literal node.  The parser yields it only as a part of a template; as an
expression on its own it is built by hand. -/
def strLit (s : String) : Expression :=
  .LiteralValueExpr (.string s)

/-- A number literal, as the parser yields it for a number such as `1`. -/
def numLit (text : String) : Expression :=
  .LiteralValueExpr (.number text)

/-- A boolean literal, as the parser yields it for `true` and `false`. -/
def boolLit (b : Bool) : Expression :=
  .LiteralValueExpr (.bool b)

/-- A template with one part, a template wrapper around a string literal: the shape
that the resolver accepts as a constant template.  Built by hand: the parser does
not yield it. -/
def wrapTemplate (s : String) : Expression :=
  .TemplateExpr [.TemplateWrapExpr (strLit s)]

/-- A template with one part, the string literal itself: the tree that the parser
yields for a quoted string without interpolation. -/
def quoted (s : String) : Expression :=
  .TemplateExpr [strLit s]

/-- The tree that the parser yields for a list of quoted strings. -/
def quotedList (ss : List String) : Expression :=
  .TupleConsExpr (ss.map quoted)

/-- An attribute entry of a body. -/
def attrEntry (name : String) (e : Expression) : String × Attribute :=
  (name, { Name := name, Expr := e, SrcRange := sampleRange })

/-- A policy text with a `Deny` statement and an `allow` statement, both with
wildcard actions and resource `*`. -/
def samplePolicyText : String :=
  "\x7b\"Version\":\"2012-10-17\",\"Statement\":[" ++
  "\x7b\"Sid\":\"Lock\",\"Effect\":\"Deny\",\"Action\":\"*\",\"Resource\":\"*\"\x7d," ++
  "\x7b\"Effect\":\"allow\",\"Action\":[\"s3:*\",\"ec2:Describe\"],\"Resource\":[\" * \"]\x7d]\x7d"

/-- The second statement of `samplePolicyText`, decoded. -/
def sampleAllowStmt : policyStmt :=
  { Sid := "", Effect := "allow", Action := ["s3:*", "ec2:Describe"], NotAction := [],
    Resource := [" * "], NotResource := [], Condition := [] }

/-- The first statement of `samplePolicyText`, decoded. -/
def sampleDenyStmt : policyStmt :=
  { Sid := "Lock", Effect := "Deny", Action := ["*"], NotAction := [],
    Resource := ["*"], NotResource := [], Condition := [] }

/-- The document that `samplePolicyText` decodes to. -/
def samplePolicyDoc : policyDoc :=
  { Version := "2012-10-17", Statement := [sampleDenyStmt, sampleAllowStmt] }

/-- The results of `json.Unmarshal` into a `policyDoc` at the texts used in this
file: `samplePolicyText` decodes to `samplePolicyDoc`, a text of white space only
(the empty text among them) and the text of one opening brace fail with the error of
an input that ends too early.  Other texts are not used; they are given a failure. -/
def sampleUnmarshal (text : String) : Except String policyDoc :=
  if text = samplePolicyText then .ok samplePolicyDoc
  else if TrimSpace text = "" ∨ text = "\x7b" then .error "unexpected end of JSON input"
  else .error "text outside the table"

/-- The policy text of the round trip property of the specification. -/
def roundTripText : String :=
  "\x7b\"Version\":\"2012-10-17\",\"Statement\":[\x7b\"Effect\":\"Allow\"," ++
  "\"Action\":\"*\",\"Resource\":\"arn:aws:s3:::b\"\x7d]\x7d"

/-- The statement that `roundTripText` decodes to. -/
def roundTripStmt : policyStmt :=
  { Sid := "", Effect := "Allow", Action := ["*"], NotAction := [],
    Resource := ["arn:aws:s3:::b"], NotResource := [], Condition := [] }

/-- A policy text whose statement has the action `null`. -/
def nullActionText : String :=
  "\x7b\"Statement\":[\x7b\"Effect\":\"Allow\",\"Action\":null\x7d]\x7d"

/-- A policy text with one statement: effect `Allow`, action `s3:*`, resource
`*`. -/
def sampleWideText : String :=
  "\x7b\"Statement\":[\x7b\"Effect\":\"Allow\",\"Action\":[\"s3:*\"]," ++
  "\"Resource\":[\"*\"]\x7d]\x7d"

/-- The statement of `sampleWideText`, decoded. -/
def sampleWideStmt : policyStmt :=
  { Sid := "", Effect := "Allow", Action := ["s3:*"], NotAction := [],
    Resource := ["*"], NotResource := [], Condition := [] }

/-- The syntax tree of the statement block
`statement { sid = "Wide"  effect = "Allow"  actions = ["s3:*"]  resources = ["*"] }`,
as the parser yields it. -/
def sampleQuotedStatement : Block :=
  .mk "statement" []
    (.mk [attrEntry "sid" (quoted "Wide"),
          attrEntry "effect" (quoted "Allow"),
          attrEntry "actions" (quotedList ["s3:*"]),
          attrEntry "resources" (quotedList ["*"])] [])
    sampleRange

/-- The syntax tree of the statement block
`statement { effect = "Allow"  actions = ["s3:GetObject"]  resources = ["*"] }`. -/
def sampleStarStatement : Block :=
  .mk "statement" []
    (.mk [attrEntry "effect" (quoted "Allow"),
          attrEntry "actions" (quotedList ["s3:GetObject"]),
          attrEntry "resources" (quotedList ["*"])] [])
    sampleRange

/-- The syntax tree of the statement block
`statement { effect = "Deny"  actions = ["*"]  resources = ["*"] }`. -/
def sampleQuotedDenyStatement : Block :=
  .mk "statement" []
    (.mk [attrEntry "effect" (quoted "Deny"),
          attrEntry "actions" (quotedList ["*"]),
          attrEntry "resources" (quotedList ["*"])] [])
    sampleRange

/-- The syntax tree of the statement block
`statement { effect = "Allow"  actions = ["s3:*"]  resources = ["arn:aws:s3:::b"] }`. -/
def sampleActionStatement : Block :=
  .mk "statement" []
    (.mk [attrEntry "effect" (quoted "Allow"),
          attrEntry "actions" (quotedList ["s3:*"]),
          attrEntry "resources" (quotedList ["arn:aws:s3:::b"])] [])
    sampleRange

/-- The syntax tree of the statement block
`statement { effect = "Allow"  actions = ["*"]  resources = ["*"] }`. -/
def sampleAllStatement : Block :=
  .mk "statement" []
    (.mk [attrEntry "effect" (quoted "Allow"),
          attrEntry "actions" (quotedList ["*"]),
          attrEntry "resources" (quotedList ["*"])] [])
    sampleRange

/-- The syntax tree of the statement block
`statement { effect = "Deny"  not_actions = ["iam:*"] }`. -/
def sampleExclusionStatement : Block :=
  .mk "statement" []
    (.mk [attrEntry "effect" (quoted "Deny"),
          attrEntry "not_actions" (quotedList ["iam:*"])] [])
    sampleRange

/-- The syntax tree of the statement block `statement { actions = var.x  sid = 1 }`. -/
def sampleNumberSidStatement : Block :=
  .mk "statement" []
    (.mk [attrEntry "actions" (.ScopeTraversalExpr ["var", "x"]),
          attrEntry "sid" (numLit "1")] [])
    sampleRange

/-- The syntax tree of the statement block `statement { actions = var.x }`. -/
def sampleDynamicStatement : Block :=
  .mk "statement" []
    (.mk [attrEntry "actions" (.ScopeTraversalExpr ["var", "x"])] [])
    sampleRange

/-- The syntax tree of the statement block `statement { effect = true }`. -/
def sampleBoolEffectStatement : Block :=
  .mk "statement" [] (.mk [attrEntry "effect" (boolLit true)] []) sampleRange

/-- The syntax tree of the statement block
`statement { effect = ["Allow"]  actions = ["*"]  resources = ["*"] }`. -/
def sampleListEffectStatement : Block :=
  .mk "statement" []
    (.mk [attrEntry "effect" (quotedList ["Allow"]),
          attrEntry "actions" (quotedList ["*"]),
          attrEntry "resources" (quotedList ["*"])] [])
    sampleRange

/-- A statement block whose only attribute is `actions = []`. -/
def sampleEmptyActionsStatement : Block :=
  .mk "statement" [] (.mk [attrEntry "actions" (.TupleConsExpr [])] []) sampleRange

/-- A statement block without any attribute. -/
def sampleBareStatement : Block :=
  .mk "statement" [] (.mk [] []) sampleRange

/-- Built by hand: a statement block with effect ` Allow` in a template wrapper,
actions `S3:*` in a template wrapper and resources `*` as a string literal, shapes
that the resolver accepts. -/
def sampleAllowStatement : Block :=
  .mk "statement" []
    (.mk [attrEntry "sid" (strLit "Wide"),
          attrEntry "effect" (wrapTemplate " Allow"),
          attrEntry "actions" (.TupleConsExpr [wrapTemplate "S3:*"]),
          attrEntry "resources" (.TupleConsExpr [strLit "*"])] [])
    sampleRange

/-- Built by hand: a statement block with effect `Deny`, wildcard actions and
resources, and a `not_actions` list, all as string literals. -/
def sampleDenyStatement : Block :=
  .mk "statement" []
    (.mk [attrEntry "effect" (strLit "Deny"),
          attrEntry "actions" (.TupleConsExpr [strLit "*"]),
          attrEntry "resources" (.TupleConsExpr [strLit "*"]),
          attrEntry "not_actions" (.TupleConsExpr [strLit "iam:PassRole"])] [])
    sampleRange

/-- Built by hand: a statement block with effect `Allow` and narrow actions and
resources, all as string literals. -/
def sampleNarrowStatement : Block :=
  .mk "statement" []
    (.mk [attrEntry "effect" (strLit "Allow"),
          attrEntry "actions" (.TupleConsExpr [strLit "s3:GetObject"]),
          attrEntry "resources" (.TupleConsExpr [strLit "arn:aws:s3:::bucket/*"])] [])
    sampleRange

/-- Built by hand: a data block `aws_iam_policy_document` with the three statements
built by hand and the statement without attributes. -/
def sampleDocumentBlock : Block :=
  .mk "data" ["aws_iam_policy_document", "doc"]
    (.mk [] [sampleDenyStatement, sampleAllowStatement, sampleNarrowStatement,
      sampleBareStatement])
    sampleRange

/-- A data block `aws_iam_policy_document` with the given nested blocks. -/
def documentWith (sts : List Block) : Block :=
  .mk "data" ["aws_iam_policy_document", "doc"] (.mk [] sts) sampleRange

/-- A data block `aws_iam_policy_document` with one nested statement block. -/
def documentOf (st : Block) : Block :=
  documentWith [st]

/-- A top-level `resource` block with the given labels whose only attribute is
`policy`, with the given expression. -/
def policyResourceWith (labels : List String) (e : Expression) : Block :=
  .mk "resource" labels (.mk [attrEntry "policy" e] []) sampleRange

/-- A top-level block `resource "aws_iam_policy" "p"` whose only attribute is
`policy`, with the given expression. -/
def policyResource (e : Expression) : Block :=
  .mk "resource" ["aws_iam_policy", "p"] (.mk [attrEntry "policy" e] []) sampleRange

/-- The call `jsonencode(var.doc)`. -/
def sampleCall : Expression :=
  .FunctionCallExpr "jsonencode" [.ScopeTraversalExpr ["var", "doc"]]

/-- The variable reference `var.policy`. -/
def sampleVariable : Expression :=
  .ScopeTraversalExpr ["var", "policy"]

/-- A template with a literal part and an interpolated part. -/
def sampleInterpolated : Expression :=
  .TemplateExpr [strLit "arn:aws:s3:::", .ScopeTraversalExpr ["var", "bucket"]]

/-- The body of a file with a resource block whose policy is a function call,
followed by a policy document block with the statement written with quoted
strings. -/
def sampleFileBody : Body :=
  .mk [] [policyResource sampleCall, documentOf sampleQuotedStatement]

/-- A top-level block with the given type tag and labels and an empty body. -/
def labelled (typ : String) (labels : List String) : Block :=
  .mk typ labels (.mk [] []) sampleRange

/-- A resource block of a type outside the allow-list, with a `policy` attribute
and a nested block. -/
def sampleInstanceResource : Block :=
  .mk "resource" ["aws_instance", "web"]
    (.mk [attrEntry "policy" (quoted samplePolicyText)] [sampleQuotedStatement]) sampleRange

/-- A resource block of an allow-listed type without a `policy` attribute. -/
def samplePolicyFreeResource : Block :=
  .mk "resource" ["aws_iam_policy", "p"]
    (.mk [attrEntry "name" (quoted "p")] [sampleQuotedStatement]) sampleRange

/-! ## Lemmas on the wildcard predicates and on the loops -/

theorem hasWildcard_iff (vals : List String) :
    hasWildcard vals = true ↔
      ∃ v ∈ vals, TrimSpace (ToLower v) = "*" ∨ TrimSpace (ToLower v) = "*:*" ∨
        HasSuffix (TrimSpace (ToLower v)) ":*" = true := by
  induction vals with
  | nil => simp [hasWildcard]
  | cons v vals ih =>
    simp only [hasWildcard, List.mem_cons, exists_eq_or_imp]
    split
    · simp_all
    · simp_all

theorem hasStar_iff (vals : List String) :
    hasStar vals = true ↔ ∃ v ∈ vals, TrimSpace v = "*" := by
  induction vals with
  | nil => simp [hasStar]
  | cons v vals ih =>
    simp only [hasStar, List.mem_cons, exists_eq_or_imp]
    split
    · simp_all
    · simp_all

theorem policyStmtLoop_out (file blockRef : String) (rng : Range) (sts : List policyStmt) :
    ∀ (i : Nat) (out : List Finding),
      policyStmtLoop file blockRef rng i sts out =
        out ++ policyStmtLoop file blockRef rng i sts [] := by
  induction sts with
  | nil => intro i out; simp [policyStmtLoop]
  | cons st rest ih =>
    intro i out
    simp only [policyStmtLoop]
    rw [ih (i + 1) (out ++ _), ih (i + 1) ([] ++ _)]
    simp

theorem policyStmtLoop_split (file blockRef : String) (rng : Range)
    (pre : List policyStmt) (st : policyStmt) (post : List policyStmt) :
    ∀ (i : Nat),
      policyStmtLoop file blockRef rng i (pre ++ st :: post) [] =
        policyStmtLoop file blockRef rng i pre [] ++
          (policyStmtFindings file blockRef rng (i + pre.length) st ++
            policyStmtLoop file blockRef rng (i + pre.length + 1) post []) := by
  induction pre with
  | nil =>
    intro i
    simp only [List.nil_append, policyStmtLoop, List.length_nil, Nat.add_zero]
    rw [policyStmtLoop_out]
  | cons p pre ih =>
    intro i
    simp only [List.cons_append, policyStmtLoop, List.nil_append, List.length_cons,
      List.append_eq]
    rw [policyStmtLoop_out, ih (i + 1),
      policyStmtLoop_out file blockRef rng pre (i + 1) (policyStmtFindings file blockRef rng i p)]
    have h1 : i + 1 + pre.length = i + (pre.length + 1) := by omega
    rw [h1]
    simp

/-- The statement loop with a slice `out` built so far returns `out` followed by what
it returns from the empty slice, and panics when it panics from the empty slice. -/
theorem statementLoop_out (file blockRef : String) (sts : List Block) :
    ∀ (out : List Finding),
      statementLoop file blockRef sts out =
        (statementLoop file blockRef sts []).map (fun fs => out ++ fs) := by
  induction sts with
  | nil => intro out; simp [statementLoop]
  | cons st rest ih =>
    intro out
    simp only [statementLoop]
    cases statementFindings file blockRef st with
    | none => rfl
    | some fs =>
      simp only
      rw [ih (out ++ fs), ih ([] ++ fs)]
      cases statementLoop file blockRef rest [] with
      | none => rfl
      | some tail => simp

/-- The statement loop over `pre ++ st :: post` returns the findings of `pre`, then
those of `st`, then those of `post`, and panics when one of the three panics. -/
theorem statementLoop_split (file blockRef : String)
    (pre : List Block) (st : Block) (post : List Block) :
    statementLoop file blockRef (pre ++ st :: post) [] =
      (statementLoop file blockRef pre []).bind fun before =>
        (statementFindings file blockRef st).bind fun fs =>
          (statementLoop file blockRef post []).bind fun after =>
            some (before ++ (fs ++ after)) := by
  induction pre with
  | nil =>
    simp only [List.nil_append, statementLoop, Option.some_bind]
    cases statementFindings file blockRef st with
    | none => rfl
    | some fs =>
      simp only [Option.some_bind]
      rw [statementLoop_out]
      cases statementLoop file blockRef post [] with
      | none => rfl
      | some tail => rfl
  | cons p pre ih =>
    simp only [List.cons_append, statementLoop, List.append_eq]
    cases statementFindings file blockRef p with
    | none => rfl
    | some ps =>
      simp only
      rw [statementLoop_out, ih, statementLoop_out file blockRef pre ([] ++ ps)]
      cases statementLoop file blockRef pre [] with
      | none => rfl
      | some before =>
        cases statementFindings file blockRef st with
        | none => rfl
        | some fs =>
          cases statementLoop file blockRef post [] with
          | none => rfl
          | some tail => simp

/-- The statement loop returns exactly when every nested block returns, and it then
returns the findings of the blocks one block after the other, in block order. -/
theorem statementLoop_eq_some (file blockRef : String) (sts : List Block) :
    ∀ (res : List Finding),
      statementLoop file blockRef sts [] = some res ↔
        ∃ chunks : List (List Finding),
          List.Forall₂ (fun st fs => statementFindings file blockRef st = some fs) sts chunks ∧
          res = chunks.flatten := by
  induction sts with
  | nil =>
    intro res
    simp only [statementLoop, Option.some.injEq, List.forall₂_nil_left_iff]
    constructor
    · intro h
      exact ⟨[], rfl, by simp [← h]⟩
    · rintro ⟨chunks, rfl, h⟩
      simp [h]
  | cons st rest ih =>
    intro res
    simp only [statementLoop]
    cases hst : statementFindings file blockRef st with
    | none =>
      constructor
      · intro h
        cases h
      · rintro ⟨chunks, hall, _⟩
        cases hall with
        | cons h _ => rw [hst] at h; cases h
    | some fs =>
      simp only
      rw [statementLoop_out]
      constructor
      · intro h
        cases hrest : statementLoop file blockRef rest [] with
        | none => rw [hrest] at h; cases h
        | some tail =>
          rw [hrest] at h
          simp only [Option.map_some', Option.some.injEq, List.nil_append] at h
          obtain ⟨chunks, hall, htail⟩ := (ih tail).mp hrest
          exact ⟨fs :: chunks, List.Forall₂.cons hst hall, by simp [← h, htail]⟩
      · rintro ⟨chunks, hall, hres⟩
        cases hall with
        | cons h hall2 =>
          rw [hst] at h
          simp only [Option.some.injEq] at h
          subst h
          have hrest := (ih _).mpr ⟨_, hall2, rfl⟩
          rw [hrest]
          simp [hres]

/-- When decoding succeeds, `analyzeJSONPolicy` returns what the statement loop
builds, and the findings of the statement at position `pre.length` stand between
those of the statements before it and those of the statements after it. -/
theorem analyzeJSONPolicy_split (unmarshal : String → Except String policyDoc)
    (raw file blockRef : String) (rng : Range) (doc : policyDoc)
    (pre : List policyStmt) (st : policyStmt) (post : List policyStmt)
    (hraw : TrimSpace raw ≠ "") (hdoc : unmarshal (TrimSpace raw) = .ok doc)
    (hst : doc.Statement = pre ++ st :: post) :
    analyzeJSONPolicy unmarshal raw file blockRef rng =
      policyStmtLoop file blockRef rng 0 pre [] ++
        (policyStmtFindings file blockRef rng pre.length st ++
          policyStmtLoop file blockRef rng (pre.length + 1) post []) := by
  have h := policyStmtLoop_split file blockRef rng pre st post 0
  simp only [Nat.zero_add] at h
  simp [analyzeJSONPolicy, hraw, hdoc, hst, h]

/-- The findings of the nested block `st` of a policy document block stand between
those of the nested blocks before it and those of the nested blocks after it; the
analysis panics when the analysis of one of the nested blocks panics. -/
theorem analyzeIAMPolicyDocumentBlock_split (b : Block) (file blockRef : String)
    (pre : List Block) (st : Block) (post : List Block)
    (hblk : b.Body.Blocks = pre ++ st :: post) :
    analyzeIAMPolicyDocumentBlock b file blockRef =
      (statementLoop file blockRef pre []).bind fun before =>
        (statementFindings file blockRef st).bind fun fs =>
          (statementLoop file blockRef post []).bind fun after =>
            some (before ++ (fs ++ after)) := by
  simp only [analyzeIAMPolicyDocumentBlock, hblk, statementLoop_split]

/-- The findings of a nested `statement` block are those that the loop body appends
for the values of its local variables; the block returns exactly when the resolver
returns on its five attributes and `getStatementID` returns. -/
theorem statementFindings_eq_some (file blockRef : String) (st : Block)
    (htyp : st.Typ = "statement") (fs : List Finding) :
    statementFindings file blockRef st = some fs ↔
      ∃ (effect : String) (actions notActions resources notResources : List String)
        (sid : String × Bool),
        stmtEffect st = some effect ∧ stmtStrings st "actions" = some actions ∧
        stmtStrings st "not_actions" = some notActions ∧
        stmtStrings st "resources" = some resources ∧
        stmtStrings st "not_resources" = some notResources ∧
        getStatementID st = some sid ∧
        fs = statementAppends file blockRef st effect actions notActions resources
          notResources (if sid.2 then sid.1 else "") := by
  unfold statementFindings
  rw [if_neg (not_not.mpr htyp)]
  cases stmtEffect st with
  | none => simp
  | some effect =>
  cases stmtStrings st "actions" with
  | none => simp
  | some actions =>
  cases stmtStrings st "not_actions" with
  | none => simp
  | some notActions =>
  cases stmtStrings st "resources" with
  | none => simp
  | some resources =>
  cases stmtStrings st "not_resources" with
  | none => simp
  | some notResources =>
  cases getStatementID st with
  | none => simp
  | some sid =>
    simp only [Option.some_bind, Option.some.injEq]
    constructor
    · intro h
      exact ⟨effect, actions, notActions, resources, notResources, sid, rfl, rfl, rfl, rfl, rfl,
        rfl, h.symm⟩
    · rintro ⟨e, a, na, r, nr, s, he, ha, hna, hr, hnr, hs, hfs⟩
      cases he; cases ha; cases hna; cases hr; cases hnr; cases hs
      exact hfs.symm

theorem policyStmtFindings_count_action (file blockRef : String) (rng : Range) (i : Nat)
    (st : policyStmt) :
    List.countP (fun f => f.Rule == "allow_action_wildcard")
        (policyStmtFindings file blockRef rng i st) =
      if EqualFold st.Effect "Allow" = true ∧ hasWildcard st.Action = true then 1 else 0 := by
  unfold policyStmtFindings
  by_cases he : EqualFold st.Effect "Allow" = true <;>
  by_cases hw : hasWildcard st.Action = true <;>
  by_cases hs : hasStar st.Resource = true <;>
  simp [he, hw, hs, List.countP_cons]

theorem policyStmtFindings_count_resource (file blockRef : String) (rng : Range) (i : Nat)
    (st : policyStmt) :
    List.countP (fun f => f.Rule == "allow_resource_star")
        (policyStmtFindings file blockRef rng i st) =
      if EqualFold st.Effect "Allow" = true ∧ hasStar st.Resource = true then 1 else 0 := by
  unfold policyStmtFindings
  by_cases he : EqualFold st.Effect "Allow" = true <;>
  by_cases hw : hasWildcard st.Action = true <;>
  by_cases hs : hasStar st.Resource = true <;>
  simp [he, hw, hs, List.countP_cons]

theorem statementAppends_count_action (file blockRef : String) (st : Block) (effect : String)
    (actions notActions resources notResources : List String) (stId : String) :
    List.countP (fun f => f.Rule == "allow_action_wildcard")
        (statementAppends file blockRef st effect actions notActions resources notResources
          stId) =
      if EqualFold effect "Allow" = true ∧ hasWildcard actions = true then 1 else 0 := by
  unfold statementAppends
  by_cases he : EqualFold effect "Allow" = true <;>
  by_cases hw : hasWildcard actions = true <;>
  by_cases hs : hasStar resources = true <;>
  by_cases hu : (stmtUnknown st actions resources || decide (notActions.length > 0) ||
      decide (notResources.length > 0)) = true <;>
  simp [he, hw, hs, hu, List.countP_cons, List.countP_append]

theorem statementAppends_count_resource (file blockRef : String) (st : Block) (effect : String)
    (actions notActions resources notResources : List String) (stId : String) :
    List.countP (fun f => f.Rule == "allow_resource_star")
        (statementAppends file blockRef st effect actions notActions resources notResources
          stId) =
      if EqualFold effect "Allow" = true ∧ hasStar resources = true then 1 else 0 := by
  unfold statementAppends
  by_cases he : EqualFold effect "Allow" = true <;>
  by_cases hw : hasWildcard actions = true <;>
  by_cases hs : hasStar resources = true <;>
  by_cases hu : (stmtUnknown st actions resources || decide (notActions.length > 0) ||
      decide (notResources.length > 0)) = true <;>
  simp [he, hw, hs, hu, List.countP_cons, List.countP_append]

theorem statementAppends_count_review (file blockRef : String) (st : Block) (effect : String)
    (actions notActions resources notResources : List String) (stId : String) :
    List.countP (fun f => f.Rule == "needs_manual_review")
        (statementAppends file blockRef st effect actions notActions resources notResources
          stId) =
      if (stmtUnknown st actions resources || decide (notActions.length > 0) ||
          decide (notResources.length > 0)) = true then 1 else 0 := by
  unfold statementAppends
  by_cases he : EqualFold effect "Allow" = true <;>
  by_cases hw : hasWildcard actions = true <;>
  by_cases hs : hasStar resources = true <;>
  by_cases hu : (stmtUnknown st actions resources || decide (notActions.length > 0) ||
      decide (notResources.length > 0)) = true <;>
  simp [he, hw, hs, hu, List.countP_cons, List.countP_append]

/-- The test of the `needs_manual_review` rule, on the values of the local variables
of one iteration: an exclusion list is not empty, or an `actions` or `resources`
attribute is present and its list is empty. -/
theorem review_condition_iff (st : Block) (actions notActions resources notResources :
    List String) :
    (stmtUnknown st actions resources || decide (notActions.length > 0) ||
        decide (notResources.length > 0)) = true ↔
      (notActions ≠ [] ∨ notResources ≠ [] ∨
        ((st.attr "actions").isSome = true ∧ actions = []) ∨
        ((st.attr "resources").isSome = true ∧ resources = [])) := by
  unfold stmtUnknown
  by_cases h1 : (st.attr "actions").isSome = true <;>
  by_cases h2 : (st.attr "resources").isSome = true <;>
  by_cases h3 : actions = [] <;>
  by_cases h4 : resources = [] <;>
  by_cases h5 : notActions = [] <;>
  by_cases h6 : notResources = [] <;>
  simp [h1, h2, h3, h4, h5, h6, List.length_pos]

/-- A quoted string, as the parser yields it, is not accepted by `exprToStrings`. -/
theorem exprToStrings_quoted (s : String) : exprToStrings (quoted s) = some ([], false) := by
  rfl

/-- The effect of a statement whose `effect` attribute is a quoted string is
empty. -/
theorem stmtEffect_quoted (st : Block) (attr : Attribute) (s : String)
    (hattr : st.attr "effect" = some attr) (hexpr : attr.Expr = quoted s) :
    stmtEffect st = some "" := by
  unfold stmtEffect
  rw [hattr]
  simp only [hexpr, exprToStrings_quoted]

/-- A statement whose effect is not `Allow` in any letter case gets no wildcard
finding. -/
theorem statementFindings_no_wildcard (file blockRef : String) (st : Block)
    (htyp : st.Typ = "statement") (effect : String) (fs : List Finding)
    (heff : stmtEffect st = some effect) (he : EqualFold effect "Allow" = false)
    (hfs : statementFindings file blockRef st = some fs) :
    fs.countP (fun f => f.Rule == "allow_action_wildcard") = 0 ∧
    fs.countP (fun f => f.Rule == "allow_resource_star") = 0 := by
  obtain ⟨e, a, na, r, nr, s, h1, _, _, _, _, _, hout⟩ :=
    (statementFindings_eq_some file blockRef st htyp fs).mp hfs
  rw [heff] at h1
  cases h1
  have ha := statementAppends_count_action file blockRef st effect a na r nr
    (if s.2 then s.1 else "")
  have hr := statementAppends_count_resource file blockRef st effect a na r nr
    (if s.2 then s.1 else "")
  rw [← hout, if_neg (by simp [he])] at ha hr
  exact ⟨ha, hr⟩

/-! ## The wildcard rules -/

set_option maxRecDepth 20000 in
/-- The decoder model on the sample policy text and on the sample text with one
statement. -/
theorem jsonUnmarshal_samples :
    TrimSpace samplePolicyText ≠ "" ∧
    jsonUnmarshal (TrimSpace samplePolicyText) = .ok samplePolicyDoc ∧
    TrimSpace sampleWideText ≠ "" ∧
    jsonUnmarshal (TrimSpace sampleWideText) =
      .ok { Version := "", Statement := [sampleWideStmt] } := by
  refine ⟨by decide, by rfl, by decide, by rfl⟩

set_option maxRecDepth 20000 in
/-- The rules of the findings of `analyzeJSONPolicy`, with the decoder model, on the
sample policy text and on the sample text with one statement. -/
theorem analyzeJSONPolicy_samples :
    (analyzeJSONPolicy jsonUnmarshal samplePolicyText "main.tf" "resource.aws_iam_policy.p"
        sampleRange).map (fun f => f.Rule) =
      ["allow_action_wildcard", "allow_resource_star"] ∧
    (analyzeJSONPolicy jsonUnmarshal sampleWideText "main.tf" "resource.aws_iam_policy.p"
        sampleRange).map (fun f => f.Rule) =
      ["allow_action_wildcard", "allow_resource_star"] := by
  have h1 : analyzeJSONPolicy jsonUnmarshal samplePolicyText "main.tf"
      "resource.aws_iam_policy.p" sampleRange =
      policyStmtLoop "main.tf" "resource.aws_iam_policy.p" sampleRange 0
        samplePolicyDoc.Statement [] := by
    simp [analyzeJSONPolicy, jsonUnmarshal_samples.1, jsonUnmarshal_samples.2.1]
  have h2 : analyzeJSONPolicy jsonUnmarshal sampleWideText "main.tf"
      "resource.aws_iam_policy.p" sampleRange =
      policyStmtLoop "main.tf" "resource.aws_iam_policy.p" sampleRange 0 [sampleWideStmt] [] := by
    simp [analyzeJSONPolicy, jsonUnmarshal_samples.2.2.1, jsonUnmarshal_samples.2.2.2]
  rw [h1, h2]
  exact ⟨by decide, by decide⟩

/-- C1, failing input: the statement block
`statement { effect = "Allow"  actions = ["s3:*"]  resources = ["arn:aws:s3:::b"] }`,
as the parser yields it.  The resolver accepts neither the quoted effect nor the list
of quoted actions, so the effect of the statement is empty and its action list is
empty, and `analyzeIAMPolicyDocumentBlock` returns one finding, with rule
`needs_manual_review`, and no `allow_action_wildcard` finding.  The decoded statement
with effect `allow` and action `s3:*` of the sample policy text gets one
`allow_action_wildcard` finding from `analyzeJSONPolicy`.  No statement block whose
effect is a quoted string gets an `allow_action_wildcard` finding. -/
theorem quoted_allow_actions_no_wildcard_finding :
    sampleActionStatement.Typ = "statement" ∧
    (∃ attr : Attribute, sampleActionStatement.attr "effect" = some attr ∧
      attr.Expr = .TemplateExpr [.LiteralValueExpr (.string "Allow")] ∧
      exprToStrings attr.Expr = some ([], false)) ∧
    (∃ attr : Attribute, sampleActionStatement.attr "actions" = some attr ∧
      attr.Expr = .TupleConsExpr [.TemplateExpr [.LiteralValueExpr (.string "s3:*")]] ∧
      exprToStrings attr.Expr = some ([], false)) ∧
    EqualFold "Allow" "Allow" = true ∧ hasWildcard ["s3:*"] = true ∧
    stmtEffect sampleActionStatement = some "" ∧
    stmtStrings sampleActionStatement "actions" = some [] ∧
    (analyzeIAMPolicyDocumentBlock (documentOf sampleActionStatement) "main.tf"
        "data.aws_iam_policy_document.doc").map (fun out => out.map (fun f => f.Rule)) =
      some ["needs_manual_review"] ∧
    (analyzeIAMPolicyDocumentBlock (documentOf sampleActionStatement) "main.tf"
        "data.aws_iam_policy_document.doc").map
        (fun out => out.countP (fun f => f.Rule == "allow_action_wildcard")) = some 0 ∧
    (policyStmtFindings "main.tf" "resource.aws_iam_policy.p" sampleRange 1
        sampleAllowStmt).countP (fun f => f.Rule == "allow_action_wildcard") = 1 ∧
    (∀ (file blockRef : String) (st : Block) (attr : Attribute) (s : String)
        (fs : List Finding),
      st.Typ = "statement" → st.attr "effect" = some attr → attr.Expr = quoted s →
      statementFindings file blockRef st = some fs →
      fs.countP (fun f => f.Rule == "allow_action_wildcard") = 0) := by
  refine ⟨rfl, ⟨_, rfl, rfl, rfl⟩, ⟨_, rfl, rfl, rfl⟩, by decide, by decide, by decide,
    by decide, by decide, by decide, by decide, ?_⟩
  intro file blockRef st attr s fs htyp hattr hexpr hfs
  exact (statementFindings_no_wildcard file blockRef st htyp "" fs
    (stmtEffect_quoted st attr s hattr hexpr) (by decide) hfs).1

/-- C2, failing input: the statement block
`statement { effect = "Allow"  actions = ["s3:GetObject"]  resources = ["*"] }`, as
the parser yields it.  The resolver accepts neither the quoted effect nor the list of
quoted resources, so the effect of the statement is empty and its resource list is
empty, and `analyzeIAMPolicyDocumentBlock` returns one finding, with rule
`needs_manual_review`, and no `allow_resource_star` finding.  The decoded statement
with effect `allow` and resource ` * ` of the sample policy text gets one
`allow_resource_star` finding from `analyzeJSONPolicy`.  No statement block whose
effect is a quoted string gets an `allow_resource_star` finding. -/
theorem quoted_allow_star_no_resource_finding :
    sampleStarStatement.Typ = "statement" ∧
    (∃ attr : Attribute, sampleStarStatement.attr "effect" = some attr ∧
      attr.Expr = .TemplateExpr [.LiteralValueExpr (.string "Allow")] ∧
      exprToStrings attr.Expr = some ([], false)) ∧
    (∃ attr : Attribute, sampleStarStatement.attr "resources" = some attr ∧
      attr.Expr = .TupleConsExpr [.TemplateExpr [.LiteralValueExpr (.string "*")]] ∧
      exprToStrings attr.Expr = some ([], false)) ∧
    EqualFold "Allow" "Allow" = true ∧ hasStar ["*"] = true ∧
    stmtEffect sampleStarStatement = some "" ∧
    stmtStrings sampleStarStatement "resources" = some [] ∧
    (analyzeIAMPolicyDocumentBlock (documentOf sampleStarStatement) "main.tf"
        "data.aws_iam_policy_document.doc").map (fun out => out.map (fun f => f.Rule)) =
      some ["needs_manual_review"] ∧
    (analyzeIAMPolicyDocumentBlock (documentOf sampleStarStatement) "main.tf"
        "data.aws_iam_policy_document.doc").map
        (fun out => out.countP (fun f => f.Rule == "allow_resource_star")) = some 0 ∧
    (policyStmtFindings "main.tf" "resource.aws_iam_policy.p" sampleRange 1
        sampleAllowStmt).countP (fun f => f.Rule == "allow_resource_star") = 1 ∧
    (∀ (file blockRef : String) (st : Block) (attr : Attribute) (s : String)
        (fs : List Finding),
      st.Typ = "statement" → st.attr "effect" = some attr → attr.Expr = quoted s →
      statementFindings file blockRef st = some fs →
      fs.countP (fun f => f.Rule == "allow_resource_star") = 0) := by
  refine ⟨rfl, ⟨_, rfl, rfl, rfl⟩, ⟨_, rfl, rfl, rfl⟩, by decide, by decide, by decide,
    by decide, by decide, by decide, by decide, ?_⟩
  intro file blockRef st attr s fs htyp hattr hexpr hfs
  exact (statementFindings_no_wildcard file blockRef st htyp "" fs
    (stmtEffect_quoted st attr s hattr hexpr) (by decide) hfs).2

/-- C3: a statement whose effect is not `Allow` in any letter case, such as `Deny`,
gets no `allow_action_wildcard` and no `allow_resource_star` finding, whatever its
action and resource lists are, in `analyzeJSONPolicy` and in
`analyzeIAMPolicyDocumentBlock`; a native statement without an `effect` attribute,
or with one that the resolver does not accept, is such a statement.  The output of
`analyzeIAMPolicyDocumentBlock` is split into the findings of the statements before,
of the statement itself, and of the statements after; the analysis panics when one
of the three panics. -/
theorem no_wildcard_finding_without_allow
    (unmarshal : String → Except String policyDoc) (raw file blockRef : String) (rng : Range)
    (doc : policyDoc) (pre : List policyStmt) (st : policyStmt) (post : List policyStmt)
    (b : Block) (bpre : List Block) (nst : Block) (bpost : List Block)
    (hraw : TrimSpace raw ≠ "") (hdoc : unmarshal (TrimSpace raw) = .ok doc)
    (hst : doc.Statement = pre ++ st :: post)
    (hblk : b.Body.Blocks = bpre ++ nst :: bpost) (htyp : nst.Typ = "statement") :
    analyzeJSONPolicy unmarshal raw file blockRef rng =
      policyStmtLoop file blockRef rng 0 pre [] ++
        (policyStmtFindings file blockRef rng pre.length st ++
          policyStmtLoop file blockRef rng (pre.length + 1) post []) ∧
    (EqualFold st.Effect "Allow" = false →
      policyStmtFindings file blockRef rng pre.length st = []) ∧
    analyzeIAMPolicyDocumentBlock b file blockRef =
      ((statementLoop file blockRef bpre []).bind fun before =>
        (statementFindings file blockRef nst).bind fun fs =>
          (statementLoop file blockRef bpost []).bind fun after =>
            some (before ++ (fs ++ after))) ∧
    (∀ (effect : String) (fs : List Finding),
      stmtEffect nst = some effect → EqualFold effect "Allow" = false →
      statementFindings file blockRef nst = some fs →
      ∀ f ∈ fs, f.Rule ≠ "allow_action_wildcard" ∧ f.Rule ≠ "allow_resource_star") ∧
    (nst.attr "effect" = none →
      ∃ effect : String, stmtEffect nst = some effect ∧ EqualFold effect "Allow" = false) ∧
    (∀ (attr : Attribute) (vals : List String), nst.attr "effect" = some attr →
      exprToStrings attr.Expr = some (vals, false) →
      ∃ effect : String, stmtEffect nst = some effect ∧ EqualFold effect "Allow" = false) := by
  refine ⟨analyzeJSONPolicy_split unmarshal raw file blockRef rng doc pre st post hraw hdoc hst,
    ?_, analyzeIAMPolicyDocumentBlock_split b file blockRef bpre nst bpost hblk, ?_, ?_, ?_⟩
  · intro he
    simp [policyStmtFindings, he]
  · intro effect fs heff he hfs f hf
    obtain ⟨ha, hr⟩ := statementFindings_no_wildcard file blockRef nst htyp effect fs heff he hfs
    rw [List.countP_eq_zero] at ha hr
    have h1 := ha f hf
    have h2 := hr f hf
    simp only [beq_iff_eq] at h1 h2
    exact ⟨h1, h2⟩
  · intro hnone
    exact ⟨"", by simp [stmtEffect, hnone], by decide⟩
  · intro attr vals hsome hbad
    refine ⟨"", ?_, by decide⟩
    unfold stmtEffect
    rw [hsome]
    simp only [hbad]

set_option maxRecDepth 20000 in
/-- C3 at the sample inputs: the decoded `Deny` statement with action `*` and
resource `*` gets no finding, and the statement block
`statement { effect = "Deny"  actions = ["*"]  resources = ["*"] }`, as the parser
yields it, gets no wildcard finding. -/
theorem no_wildcard_finding_without_allow_witness :
    TrimSpace samplePolicyText ≠ "" ∧
    jsonUnmarshal (TrimSpace samplePolicyText) = .ok samplePolicyDoc ∧
    EqualFold sampleDenyStmt.Effect "Allow" = false ∧
    stmtEffect sampleQuotedDenyStatement = some "" ∧
    policyStmtFindings "main.tf" "resource.aws_iam_policy.p" sampleRange 0 sampleDenyStmt = [] ∧
    (statementFindings "main.tf" "resource.aws_iam_policy.p" sampleQuotedDenyStatement).map
      (fun fs => fs.map (fun f => f.Rule)) = some ["needs_manual_review"] ∧
    (∀ fs : List Finding,
      statementFindings "main.tf" "resource.aws_iam_policy.p" sampleQuotedDenyStatement =
        some fs →
      ∀ f ∈ fs, f.Rule ≠ "allow_action_wildcard" ∧ f.Rule ≠ "allow_resource_star") :=
  have h := no_wildcard_finding_without_allow jsonUnmarshal samplePolicyText "main.tf"
    "resource.aws_iam_policy.p" sampleRange samplePolicyDoc [] sampleDenyStmt [sampleAllowStmt]
    (documentWith [sampleQuotedDenyStatement, sampleQuotedStatement]) []
    sampleQuotedDenyStatement [sampleQuotedStatement]
    (by decide) (by rfl) rfl rfl rfl
  ⟨by decide, by rfl, by decide, by decide, h.2.1 (by decide), by decide,
    fun fs => h.2.2.2.1 "" fs (by decide) (by decide)⟩

/-! ## The manual review rule of the native path -/

/-- C4, failing input: the statement block
`statement { effect = "Deny"  not_actions = ["iam:*"] }`, as the parser yields it.
The resolver does not accept the list of quoted strings, the `not_actions` list of
the statement stays empty, and `analyzeIAMPolicyDocumentBlock` returns no finding for
the statement.  A second input, `statement { actions = var.x  sid = 1 }`: the
`actions` attribute is present and not resolved, and the analysis panics in
`getStatementID`, which takes the string of the number; without the `sid` attribute
the statement gets the `needs_manual_review` finding. -/
theorem quoted_exclusion_list_not_reviewed :
    sampleExclusionStatement.Typ = "statement" ∧
    (∃ attr : Attribute, sampleExclusionStatement.attr "not_actions" = some attr ∧
      attr.Expr = .TupleConsExpr [.TemplateExpr [.LiteralValueExpr (.string "iam:*")]] ∧
      exprToStrings attr.Expr = some ([], false)) ∧
    stmtStrings sampleExclusionStatement "not_actions" = some [] ∧
    analyzeIAMPolicyDocumentBlock (documentOf sampleExclusionStatement) "main.tf"
      "data.aws_iam_policy_document.doc" = some [] ∧
    (∃ attr : Attribute, sampleNumberSidStatement.attr "actions" = some attr ∧
      attr.Expr = .ScopeTraversalExpr ["var", "x"]) ∧
    (∃ attr : Attribute, sampleNumberSidStatement.attr "sid" = some attr ∧
      attr.Expr = .LiteralValueExpr (.number "1")) ∧
    stmtStrings sampleNumberSidStatement "actions" = some [] ∧
    getStatementID sampleNumberSidStatement = none ∧
    analyzeIAMPolicyDocumentBlock (documentOf sampleNumberSidStatement) "main.tf"
      "data.aws_iam_policy_document.doc" = none ∧
    (analyzeIAMPolicyDocumentBlock (documentOf sampleDynamicStatement) "main.tf"
        "data.aws_iam_policy_document.doc").map (fun out => out.map (fun f => f.Rule)) =
      some ["needs_manual_review"] := by
  refine ⟨rfl, ⟨_, rfl, rfl, rfl⟩, by decide, by decide, ⟨_, rfl, rfl⟩, ⟨_, rfl, rfl⟩,
    by decide, by decide, by decide, by decide⟩

/-! ## Decoding failures -/

/-- C5, as stated, fails on a policy string of white space: decoding a blank text
fails, the string is not empty, so the resource block hands it to
`analyzeJSONPolicy`, and `analyzeJSONPolicy` returns no finding at all, with any
decoder.  The resource block has the string as a string literal node, built by
hand. -/
theorem parse_error_blank_text_counterexample :
    sampleUnmarshal " " = .error "unexpected end of JSON input" ∧
    sampleUnmarshal (TrimSpace " ") = .error "unexpected end of JSON input" ∧
    tryExtractStaticString (strLit " ") = some " " ∧
    (∀ unmarshal : String → Except String policyDoc,
      analyzeJSONPolicy unmarshal " " "main.tf" "resource.aws_iam_policy.p" sampleRange = []) ∧
    blockFindings sampleUnmarshal "main.tf" (policyResource (strLit " ")) = some [] := by
  refine ⟨rfl, rfl, rfl, ?_, ?_⟩
  · intro unmarshal
    have h : TrimSpace " " = "" := by decide
    simp [analyzeJSONPolicy, h]
  · decide

/-- C5, amended: for a policy string that is not empty after trimming and whose
trimmed text fails to decode, `analyzeJSONPolicy` returns exactly one finding, with
scanner `terraform`, rule `parse_error`, severity `HIGH`, an empty statement
identifier, the file and block reference it was given, the start line and column of
the range it was given, and details that carry the text of the decoding error.  The
function is total. -/
theorem parse_error_single_finding
    (unmarshal : String → Except String policyDoc) (raw file blockRef : String) (rng : Range)
    (err : String)
    (hraw : TrimSpace raw ≠ "") (herr : unmarshal (TrimSpace raw) = .error err) :
    ∃ f : Finding,
      analyzeJSONPolicy unmarshal raw file blockRef rng = [f] ∧
      f.Scanner = "terraform" ∧ f.Rule = "parse_error" ∧ f.Severity = "HIGH" ∧
      f.StatementID = "" ∧ f.File = file ∧ f.BlockRef = blockRef ∧
      f.Line = rng.Start.Line ∧ f.Column = rng.Start.Column ∧
      f.Details = "Could not parse JSON policy (possibly dynamic/interpolated): " ++ err := by
  refine ⟨parseErrorFinding file blockRef rng err, ?_, rfl, rfl, rfl, rfl, rfl, rfl, rfl, rfl,
    rfl⟩
  simp [analyzeJSONPolicy, hraw, herr]

/-- C5, amended, at a sample input: the text of one opening brace, with white space
around it, fails to decode and gives one `parse_error` finding. -/
theorem parse_error_single_finding_witness :
    TrimSpace " \x7b\n" ≠ "" ∧
    sampleUnmarshal (TrimSpace " \x7b\n") = .error "unexpected end of JSON input" ∧
    ∃ f : Finding,
      analyzeJSONPolicy sampleUnmarshal " \x7b\n" "main.tf" "resource.aws_iam_policy.p"
        sampleRange = [f] ∧
      f.Scanner = "terraform" ∧ f.Rule = "parse_error" ∧ f.Severity = "HIGH" ∧
      f.StatementID = "" ∧ f.File = "main.tf" ∧ f.BlockRef = "resource.aws_iam_policy.p" ∧
      f.Line = sampleRange.Start.Line ∧ f.Column = sampleRange.Start.Column ∧
      f.Details = "Could not parse JSON policy (possibly dynamic/interpolated): " ++
        "unexpected end of JSON input" :=
  ⟨by decide, rfl,
    parse_error_single_finding sampleUnmarshal " \x7b\n" "main.tf" "resource.aws_iam_policy.p"
      sampleRange "unexpected end of JSON input" (by decide) rfl⟩

/-! ## Policy attributes of resource blocks -/

/-- The three outcomes of `tryExtractStaticString`: a primitive literal, a template
with one part that is a template wrapper around a primitive literal, both with the
result of `AsString` on the value of the literal, or anything else with the empty
string as result. -/
theorem tryExtractStaticString_shape (e : Expression) :
    (∃ v : Value, e = .LiteralValueExpr v ∧ v.IsPrimitiveType = true ∧
      tryExtractStaticString e = v.AsString) ∨
    (∃ v : Value, e = .TemplateExpr [.TemplateWrapExpr (.LiteralValueExpr v)] ∧
      v.IsPrimitiveType = true ∧ tryExtractStaticString e = v.AsString) ∨
    ((∀ v : Value, e = .LiteralValueExpr v → v.IsPrimitiveType = false) ∧
      (∀ v : Value, e = .TemplateExpr [.TemplateWrapExpr (.LiteralValueExpr v)] →
        v.IsPrimitiveType = false) ∧
      tryExtractStaticString e = some "") := by
  cases e with
  | LiteralValueExpr v =>
    by_cases hp : v.IsPrimitiveType = true
    · exact Or.inl ⟨v, rfl, hp, by simp [tryExtractStaticString, hp]⟩
    · refine Or.inr (Or.inr ⟨?_, ?_, by simp [tryExtractStaticString, hp]⟩)
      · intro w hw
        cases hw
        simpa using hp
      · intro w hw
        cases hw
  | TemplateExpr parts =>
    cases parts with
    | nil =>
      refine Or.inr (Or.inr ⟨?_, ?_, rfl⟩)
      · intro w hw; cases hw
      · intro w hw; cases hw
    | cons part more =>
      cases more with
      | cons p2 more2 =>
        refine Or.inr (Or.inr ⟨?_, ?_, rfl⟩)
        · intro w hw; cases hw
        · intro w hw; cases hw
      | nil =>
        cases part with
        | TemplateWrapExpr wrapped =>
          cases wrapped with
          | LiteralValueExpr v =>
            by_cases hp : v.IsPrimitiveType = true
            · exact Or.inr (Or.inl ⟨v, rfl, hp, by simp [tryExtractStaticString, hp]⟩)
            · refine Or.inr (Or.inr ⟨?_, ?_, by simp [tryExtractStaticString, hp]⟩)
              · intro w hw; cases hw
              · intro w hw
                cases hw
                simpa using hp
          | _ =>
            refine Or.inr (Or.inr ⟨?_, ?_, rfl⟩)
            · intro w hw; cases hw
            · intro w hw; cases hw
        | _ =>
          refine Or.inr (Or.inr ⟨?_, ?_, rfl⟩)
          · intro w hw; cases hw
          · intro w hw; cases hw
  | _ =>
    refine Or.inr (Or.inr ⟨?_, ?_, rfl⟩)
    · intro w hw; cases hw
    · intro w hw; cases hw

/-- C6: a top-level `resource` block with at least two labels, whose type is one of
the five resource types of the allow-list and whose `policy` attribute is neither a
primitive literal nor a template that the resolver takes as constant (one part, a
template wrapper around a primitive literal), adds exactly one finding, with rule
`unknown_dynamic_policy` and severity `HIGH`.  Function calls, variable references
and templates with interpolation are such expressions.  The decoder takes no part:
the finding list is the same for every decoder, so no `parse_error` and no wildcard
finding comes from the block. -/
theorem dynamic_policy_single_unknown_finding
    (unmarshal : String → Except String policyDoc) (path : String) (blk : Block)
    (rType rName : String) (rest : List String) (attr : Attribute)
    (htyp : blk.Typ = "resource") (hlab : blk.Labels = rType :: rName :: rest)
    (hlist : rType = "aws_iam_policy" ∨ rType = "aws_iam_role_policy" ∨
      rType = "aws_iam_user_policy" ∨ rType = "aws_iam_group_policy" ∨
      rType = "aws_s3_bucket_policy")
    (hattr : blk.attr "policy" = some attr)
    (hlit : ∀ v : Value, attr.Expr = .LiteralValueExpr v → v.IsPrimitiveType = false)
    (htpl : ∀ v : Value, attr.Expr = .TemplateExpr [.TemplateWrapExpr (.LiteralValueExpr v)] →
      v.IsPrimitiveType = false) :
    ∃ f : Finding,
      blockFindings unmarshal path blk = some [f] ∧
      f.Rule = "unknown_dynamic_policy" ∧ f.Severity = "HIGH" ∧ f.Scanner = "terraform" ∧
      f.File = path ∧ f.BlockRef = "resource." ++ rType ++ "." ++ rName ∧
      f.StatementID = "" ∧
      f.Line = attr.SrcRange.Start.Line ∧ f.Column = attr.SrcRange.Start.Column := by
  have hres : tryExtractStaticString attr.Expr = some "" := by
    rcases tryExtractStaticString_shape attr.Expr with ⟨v, hv, hp, _⟩ | ⟨v, hv, hp, _⟩ | ⟨_, _, h⟩
    · rw [hlit v hv] at hp
      cases hp
    · rw [htpl v hv] at hp
      cases hp
    · exact h
  have hmap : resourceTypesWithPolicyJSON rType = true := by
    rcases hlist with h | h | h | h | h <;> subst h <;> decide
  refine ⟨unknownDynamicPolicyFinding path ("resource." ++ rType ++ "." ++ rName) attr.SrcRange,
    ?_, rfl, rfl, rfl, rfl, rfl, rfl, rfl, rfl⟩
  simp [blockFindings, htyp, hlab, hmap, hattr, hres]

/-- C6 at sample inputs: a `policy` attribute that is the call `jsonencode(var.doc)`,
the variable reference `var.policy`, or a template with an interpolated part adds one
`unknown_dynamic_policy` finding. -/
theorem dynamic_policy_single_unknown_finding_witness :
    (policyResource sampleCall).Typ = "resource" ∧
    (policyResource sampleCall).Labels = ["aws_iam_policy", "p"] ∧
    (∃ f : Finding,
      blockFindings sampleUnmarshal "main.tf" (policyResource sampleCall) = some [f] ∧
      f.Rule = "unknown_dynamic_policy" ∧ f.Severity = "HIGH" ∧ f.Scanner = "terraform" ∧
      f.File = "main.tf" ∧ f.BlockRef = "resource." ++ "aws_iam_policy" ++ "." ++ "p" ∧
      f.StatementID = "" ∧
      f.Line = sampleRange.Start.Line ∧ f.Column = sampleRange.Start.Column) ∧
    (∃ f : Finding,
      blockFindings sampleUnmarshal "main.tf" (policyResource sampleVariable) = some [f] ∧
      f.Rule = "unknown_dynamic_policy" ∧ f.Severity = "HIGH" ∧ f.Scanner = "terraform" ∧
      f.File = "main.tf" ∧ f.BlockRef = "resource." ++ "aws_iam_policy" ++ "." ++ "p" ∧
      f.StatementID = "" ∧
      f.Line = sampleRange.Start.Line ∧ f.Column = sampleRange.Start.Column) ∧
    (∃ f : Finding,
      blockFindings sampleUnmarshal "main.tf" (policyResource sampleInterpolated) = some [f] ∧
      f.Rule = "unknown_dynamic_policy" ∧ f.Severity = "HIGH" ∧ f.Scanner = "terraform" ∧
      f.File = "main.tf" ∧ f.BlockRef = "resource." ++ "aws_iam_policy" ++ "." ++ "p" ∧
      f.StatementID = "" ∧
      f.Line = sampleRange.Start.Line ∧ f.Column = sampleRange.Start.Column) :=
  ⟨rfl, rfl,
    dynamic_policy_single_unknown_finding sampleUnmarshal "main.tf" (policyResource sampleCall)
      "aws_iam_policy" "p" [] (attrEntry "policy" sampleCall).2 rfl rfl (Or.inl rfl) rfl
      (fun _ h => by simp [attrEntry, sampleCall] at h)
      (fun _ h => by simp [attrEntry, sampleCall] at h),
    dynamic_policy_single_unknown_finding sampleUnmarshal "main.tf"
      (policyResource sampleVariable)
      "aws_iam_policy" "p" [] (attrEntry "policy" sampleVariable).2 rfl rfl (Or.inl rfl) rfl
      (fun _ h => by simp [attrEntry, sampleVariable] at h)
      (fun _ h => by simp [attrEntry, sampleVariable] at h),
    dynamic_policy_single_unknown_finding sampleUnmarshal "main.tf"
      (policyResource sampleInterpolated)
      "aws_iam_policy" "p" [] (attrEntry "policy" sampleInterpolated).2 rfl rfl (Or.inl rfl) rfl
      (fun _ h => by simp [attrEntry, sampleInterpolated] at h)
      (fun _ h => by simp [attrEntry, sampleInterpolated, strLit] at h)⟩

/-- C7, failing input: the resource block `resource "aws_iam_policy" "p"` with
`policy = ""`, and the same block with the policy text of the round trip property as
a quoted string, as the parser yields them.  The policy expression is a constant
template, a template whose one part is a string literal.  The resolver does not
accept it, `tryExtractStaticString` returns the empty string, and the block adds the
`unknown_dynamic_policy` finding, the one it adds for a function call; so it does
for every quoted string. -/
theorem quoted_policy_reported_as_dynamic :
    resourceTypesWithPolicyJSON "aws_iam_policy" = true ∧
    quoted "" = .TemplateExpr [.LiteralValueExpr (.string "")] ∧
    tryExtractStaticString (quoted "") = some "" ∧
    blockFindings jsonUnmarshal "main.tf" (policyResource (quoted "")) =
      some [unknownDynamicPolicyFinding "main.tf" "resource.aws_iam_policy.p" sampleRange] ∧
    tryExtractStaticString (quoted roundTripText) = some "" ∧
    blockFindings jsonUnmarshal "main.tf" (policyResource (quoted roundTripText)) =
      some [unknownDynamicPolicyFinding "main.tf" "resource.aws_iam_policy.p" sampleRange] ∧
    blockFindings jsonUnmarshal "main.tf" (policyResource sampleCall) =
      some [unknownDynamicPolicyFinding "main.tf" "resource.aws_iam_policy.p" sampleRange] ∧
    (unknownDynamicPolicyFinding "main.tf" "resource.aws_iam_policy.p" sampleRange).Rule =
      "unknown_dynamic_policy" ∧
    (∀ (unmarshal : String → Except String policyDoc) (s : String),
      blockFindings unmarshal "main.tf" (policyResource (quoted s)) =
        some [unknownDynamicPolicyFinding "main.tf" "resource.aws_iam_policy.p"
          sampleRange]) := by
  refine ⟨by decide, rfl, rfl, ?_, rfl, ?_, ?_, rfl, ?_⟩
  · decide
  · decide
  · decide
  · intro unmarshal s
    have h1 : (policyResource (quoted s)).Typ = "resource" := rfl
    have h2 : resourceTypesWithPolicyJSON "aws_iam_policy" = true := by decide
    simp [blockFindings, policyResource, Block.Typ, Block.Labels, Block.attr, Block.Body,
      Body.Attributes, attrEntry, List.lookup, h2, quoted, strLit, tryExtractStaticString]

/-! ## The walk over files and blocks -/

theorem blockLoop_out (unmarshal : String → Except String policyDoc) (path : String)
    (blks : List Block) :
    ∀ findings : List Finding,
      blockLoop unmarshal path blks findings =
        (blockLoop unmarshal path blks []).map (fun fs => findings ++ fs) := by
  induction blks with
  | nil => intro findings; simp [blockLoop]
  | cons blk rest ih =>
    intro findings
    simp only [blockLoop]
    cases blockFindings unmarshal path blk with
    | none => rfl
    | some fs =>
      simp only
      rw [ih (findings ++ fs), ih ([] ++ fs)]
      cases blockLoop unmarshal path rest [] with
      | none => rfl
      | some tail => simp

/-- The loop over the top-level blocks of a file returns exactly when every block
returns, and it then returns the findings of the blocks one block after the other,
in block order. -/
theorem blockLoop_eq_some (unmarshal : String → Except String policyDoc) (path : String)
    (blks : List Block) :
    ∀ (res : List Finding),
      blockLoop unmarshal path blks [] = some res ↔
        ∃ chunks : List (List Finding),
          List.Forall₂ (fun blk fs => blockFindings unmarshal path blk = some fs) blks chunks ∧
          res = chunks.flatten := by
  induction blks with
  | nil =>
    intro res
    simp only [blockLoop, Option.some.injEq, List.forall₂_nil_left_iff]
    constructor
    · intro h
      exact ⟨[], rfl, by simp [← h]⟩
    · rintro ⟨chunks, rfl, h⟩
      simp [h]
  | cons blk rest ih =>
    intro res
    simp only [blockLoop]
    cases hblk : blockFindings unmarshal path blk with
    | none =>
      constructor
      · intro h
        cases h
      · rintro ⟨chunks, hall, _⟩
        cases hall with
        | cons h _ => rw [hblk] at h; cases h
    | some fs =>
      simp only
      rw [blockLoop_out]
      constructor
      · intro h
        cases hrest : blockLoop unmarshal path rest [] with
        | none => rw [hrest] at h; cases h
        | some tail =>
          rw [hrest] at h
          simp only [Option.map_some', Option.some.injEq, List.nil_append] at h
          obtain ⟨chunks, hall, htail⟩ := (ih tail).mp hrest
          exact ⟨fs :: chunks, List.Forall₂.cons hblk hall, by simp [← h, htail]⟩
      · rintro ⟨chunks, hall, hres⟩
        cases hall with
        | cons h hall2 =>
          rw [hblk] at h
          simp only [Option.some.injEq] at h
          subst h
          have hrest := (ih _).mpr ⟨_, hall2, rfl⟩
          rw [hrest]
          simp [hres]

theorem walkFindings_out (unmarshal : String → Except String policyDoc)
    (files : List (String × Body)) :
    ∀ findings : List Finding,
      walkFindings unmarshal files findings =
        (walkFindings unmarshal files []).map (fun fs => findings ++ fs) := by
  induction files with
  | nil => intro findings; simp [walkFindings]
  | cons file rest ih =>
    intro findings
    obtain ⟨path, body⟩ := file
    simp only [walkFindings]
    rw [blockLoop_out]
    cases blockLoop unmarshal path body.Blocks [] with
    | none => rfl
    | some fs =>
      simp only [Option.map_some']
      rw [ih (findings ++ fs), ih fs]
      cases walkFindings unmarshal rest [] with
      | none => rfl
      | some tail => simp

/-- The local variable `findings` of `ScanTerraform`, when the walk ends, holds the
findings of every top-level block of every file, in file order and then in block
order, with nothing dropped, repeated or moved; the walk ends exactly when no block
panics. -/
theorem walkFindings_eq (unmarshal : String → Except String policyDoc)
    (files : List (String × Body)) :
    ∀ (res : List Finding),
      walkFindings unmarshal files [] = some res ↔
        ∃ chunks : List (List Finding),
          List.Forall₂ (fun file fs => blockLoop unmarshal file.1 file.2.Blocks [] = some fs)
            files chunks ∧
          res = chunks.flatten := by
  induction files with
  | nil =>
    intro res
    simp only [walkFindings, Option.some.injEq, List.forall₂_nil_left_iff]
    constructor
    · intro h
      exact ⟨[], rfl, by simp [← h]⟩
    · rintro ⟨chunks, rfl, h⟩
      simp [h]
  | cons file rest ih =>
    intro res
    obtain ⟨path, body⟩ := file
    simp only [walkFindings]
    cases hfile : blockLoop unmarshal path body.Blocks [] with
    | none =>
      constructor
      · intro h
        cases h
      · rintro ⟨chunks, hall, _⟩
        cases hall with
        | cons h _ =>
          simp only at h
          rw [hfile] at h
          cases h
    | some fs =>
      simp only
      rw [walkFindings_out]
      constructor
      · intro h
        cases hrest : walkFindings unmarshal rest [] with
        | none => rw [hrest] at h; cases h
        | some tail =>
          rw [hrest] at h
          simp only [Option.map_some', Option.some.injEq] at h
          obtain ⟨chunks, hall, htail⟩ := (ih tail).mp hrest
          exact ⟨fs :: chunks, List.Forall₂.cons hfile hall, by simp [← h, htail]⟩
      · rintro ⟨chunks, hall, hres⟩
        cases hall with
        | cons h hall2 =>
          simp only at h
          rw [hfile] at h
          simp only [Option.some.injEq] at h
          subst h
          have hrest := (ih _).mpr ⟨_, hall2, rfl⟩
          rw [hrest]
          simp [hres]

/-- C8, failing input: one file with the resource block
`resource "aws_iam_policy" "p"` whose policy is the call `jsonencode(var.doc)` and a
policy document block with a statement written with quoted strings.  The walk
collects two findings, and `ScanTerraform` returns none of them; whenever it
returns, for every decoder and every sequence of files, it returns the empty
sequence. -/
theorem scan_returns_no_finding :
    (walkFindings sampleUnmarshal [("main.tf", sampleFileBody)] []).map
      (fun findings => findings.length) = some 2 ∧
    (walkFindings sampleUnmarshal [("main.tf", sampleFileBody)] []).map
      (fun findings => findings.map (fun f => f.Rule)) =
      some ["unknown_dynamic_policy", "needs_manual_review"] ∧
    ScanTerraform sampleUnmarshal [("main.tf", sampleFileBody)] = some [] ∧
    (∀ (unmarshal : String → Except String policyDoc) (files : List (String × Body)),
      ScanTerraform unmarshal files =
        (walkFindings unmarshal files []).map (fun _ => [])) ∧
    (∀ (unmarshal : String → Except String policyDoc) (files : List (String × Body))
        (out : List Finding),
      ScanTerraform unmarshal files = some out → out = []) := by
  refine ⟨by decide, by decide, by decide, ?_, ?_⟩
  · intro unmarshal files
    unfold ScanTerraform
    cases walkFindings unmarshal files [] <;> rfl
  · intro unmarshal files out h
    unfold ScanTerraform at h
    cases hw : walkFindings unmarshal files [] with
    | none => rw [hw] at h; cases h
    | some fs =>
      rw [hw] at h
      simp only [Option.some.injEq] at h
      exact h.symm

/-! ## The expression resolver -/

/-- The template case of `exprToStrings` and of `tryExtractStaticString`: a template
is accepted exactly when it has one part and that part is a template wrapper around a
primitive literal, and the result is then the result of `AsString` on the value of
that literal; every other template is not accepted. -/
theorem template_resolution (parts : List Expression) :
    (∀ v : Value, parts = [.TemplateWrapExpr (.LiteralValueExpr v)] →
      v.IsPrimitiveType = true →
      exprToStrings (.TemplateExpr parts) = v.AsString.map (fun s => ([s], true)) ∧
      tryExtractStaticString (.TemplateExpr parts) = v.AsString) ∧
    ((¬ ∃ v : Value, parts = [.TemplateWrapExpr (.LiteralValueExpr v)] ∧
        v.IsPrimitiveType = true) →
      exprToStrings (.TemplateExpr parts) = some ([], false) ∧
      tryExtractStaticString (.TemplateExpr parts) = some "") := by
  cases parts with
  | nil => simp [exprToStrings, tryExtractStaticString]
  | cons part more =>
    cases more with
    | cons p2 more2 => simp [exprToStrings, tryExtractStaticString]
    | nil =>
      cases part with
      | TemplateWrapExpr wrapped =>
        cases wrapped with
        | LiteralValueExpr v =>
          by_cases hp : v.IsPrimitiveType = true
          · cases hs : v.AsString <;>
            simp [exprToStrings, tryExtractStaticString, hp, hs]
          · simp [exprToStrings, tryExtractStaticString, hp]
        | _ => simp [exprToStrings, tryExtractStaticString]
      | _ => simp [exprToStrings, tryExtractStaticString]

/-- C9, failing input: the template whose one part is the primitive string literal
`Allow`, the tree of the quoted string `"Allow"`, is not resolved by `exprToStrings`
nor by `tryExtractStaticString`, and neither is a tuple with that template as its
element.  The resolver accepts the template only when its part is a template wrapper
around the literal.  In consequence a statement whose effect is that quoted string
has an empty effect, and a policy attribute that is a quoted policy text is reported
as dynamic. -/
theorem quoted_string_not_resolved :
    exprToStrings (.TemplateExpr [.LiteralValueExpr (.string "Allow")]) = some ([], false) ∧
    tryExtractStaticString (.TemplateExpr [.LiteralValueExpr (.string "Allow")]) = some "" ∧
    exprToStrings (.TupleConsExpr [.TemplateExpr [.LiteralValueExpr (.string "Allow")]]) =
      some ([], false) ∧
    exprToStrings (.TemplateExpr [.TemplateWrapExpr (.LiteralValueExpr (.string "Allow"))]) =
      some (["Allow"], true) ∧
    tryExtractStaticString
      (.TemplateExpr [.TemplateWrapExpr (.LiteralValueExpr (.string "Allow"))]) =
      some "Allow" ∧
    quoted "Allow" = .TemplateExpr [.LiteralValueExpr (.string "Allow")] ∧
    stmtEffect (.mk "statement" [] (.mk [attrEntry "effect" (quoted "Allow")] [])
      sampleRange) = some "" ∧
    blockFindings sampleUnmarshal "main.tf" (policyResource (quoted samplePolicyText)) =
      some [unknownDynamicPolicyFinding "main.tf" "resource.aws_iam_policy.p" sampleRange] := by
  refine ⟨rfl, rfl, rfl, rfl, rfl, rfl, by decide, by decide⟩

/-- The tuple loop never returns a partial list: when it reports the tuple as not
resolved, the list it returns is empty. -/
theorem tupleToStrings_unresolved_empty (es : List Expression) :
    ∀ (out vals : List String), tupleToStrings es out = some (vals, false) → vals = [] := by
  induction es with
  | nil =>
    intro out vals h
    simp [tupleToStrings] at h
  | cons e rest ih =>
    intro out vals h
    unfold tupleToStrings at h
    split at h
    · split at h
      · split at h
        · exact ih _ _ h
        · cases h
      · simp only [Option.some.injEq, Prod.mk.injEq] at h
        exact h.1.symm
    · split at h
      · split at h
        · split at h
          · split at h
            · split at h
              · exact ih _ _ h
              · cases h
            · simp only [Option.some.injEq, Prod.mk.injEq] at h
              exact h.1.symm
          · simp only [Option.some.injEq, Prod.mk.injEq] at h
            exact h.1.symm
        · simp only [Option.some.injEq, Prod.mk.injEq] at h
          exact h.1.symm
      · simp only [Option.some.injEq, Prod.mk.injEq] at h
        exact h.1.symm
    · simp only [Option.some.injEq, Prod.mk.injEq] at h
      exact h.1.symm

/-- C10, failing input: the tuple `["s3:*"]`, as the parser yields it.  Its element
is a constant template, a template whose one part is a string literal, and
`exprToStrings` reports the tuple as not resolved; so it does for every list of
quoted strings that is not empty.  On the tuple `[1]`, whose element is a primitive
literal, and on `[1, var.x]`, whose second element fails, `exprToStrings` panics,
taking the string of the number.  A list returned with `false` is always empty, and
the tuple `[var.x, 1]` and the empty tuple are handled as the claim says. -/
theorem quoted_list_not_resolved :
    quotedList ["s3:*"] =
      .TupleConsExpr [.TemplateExpr [.LiteralValueExpr (.string "s3:*")]] ∧
    exprToStrings (quotedList ["s3:*"]) = some ([], false) ∧
    (∀ (s : String) (ss : List String),
      exprToStrings (quotedList (s :: ss)) = some ([], false)) ∧
    (Value.number "1").IsPrimitiveType = true ∧
    exprToStrings (.TupleConsExpr [numLit "1"]) = none ∧
    exprToStrings (.TupleConsExpr [boolLit true]) = none ∧
    exprToStrings (.TupleConsExpr [numLit "1", .ScopeTraversalExpr ["var", "x"]]) = none ∧
    exprToStrings (.TupleConsExpr [.ScopeTraversalExpr ["var", "x"], numLit "1"]) =
      some ([], false) ∧
    exprToStrings (.TupleConsExpr []) = some ([], true) ∧
    (∀ (es : List Expression) (vals : List String),
      exprToStrings (.TupleConsExpr es) = some (vals, false) → vals = []) := by
  refine ⟨rfl, rfl, ?_, rfl, rfl, rfl, rfl, rfl, rfl, ?_⟩
  · intro s ss
    rfl
  · intro es vals h
    exact tupleToStrings_unresolved_empty es [] vals h

/-! ## Decoding of policy texts -/

set_option maxRecDepth 20000 in
/-- The sample table of decoder results agrees with the decoder model at the sample
policy text. -/
theorem jsonUnmarshal_samplePolicyText :
    jsonUnmarshal samplePolicyText = sampleUnmarshal samplePolicyText := by
  rfl

set_option maxRecDepth 20000 in
/-- The decoder model on the round trip text of the specification. -/
theorem jsonUnmarshal_roundTripText :
    jsonUnmarshal roundTripText =
      .ok { Version := "2012-10-17", Statement := [roundTripStmt] } := by
  rfl

/-- One `Allow` statement with a wildcard action and no resource `*` gives exactly
one finding, with rule `allow_action_wildcard`. -/
theorem single_statement_single_finding
    (unmarshal : String → Except String policyDoc) (raw file blockRef : String) (rng : Range)
    (doc : policyDoc) (st : policyStmt)
    (hraw : TrimSpace raw ≠ "") (hdoc : unmarshal (TrimSpace raw) = .ok doc)
    (hone : doc.Statement = [st]) (hallow : EqualFold st.Effect "Allow" = true)
    (hact : hasWildcard st.Action = true) (hres : hasStar st.Resource = false) :
    ∃ f : Finding,
      analyzeJSONPolicy unmarshal raw file blockRef rng = [f] ∧
      f.Rule = "allow_action_wildcard" := by
  have hout : analyzeJSONPolicy unmarshal raw file blockRef rng =
      policyStmtFindings file blockRef rng 0 st := by
    simp [analyzeJSONPolicy, hraw, hdoc, hone, policyStmtLoop]
  rw [hout]
  simp [policyStmtFindings, hallow, hact, hres]

set_option maxRecDepth 20000 in
/-- The rule engine on the round trip text of the specification, with the decoder
model. -/
theorem analyzeJSONPolicy_roundTripText (file blockRef : String) (rng : Range) :
    ∃ f : Finding,
      analyzeJSONPolicy jsonUnmarshal roundTripText file blockRef rng = [f] ∧
      f.Rule = "allow_action_wildcard" := by
  have htrim : TrimSpace roundTripText = roundTripText := by decide
  exact single_statement_single_finding jsonUnmarshal roundTripText file blockRef rng _
    roundTripStmt (by rw [htrim]; decide)
    (by rw [htrim]; exact jsonUnmarshal_roundTripText) rfl (by decide) (by decide) (by decide)

/-- C11: when the decoded document consists of one statement whose effect is `Allow`
in any letter case, whose action list has a wildcard value and whose resource list
has no value that trims to `*`, `analyzeJSONPolicy` returns exactly one finding, and
its rule is `allow_action_wildcard`.  The policy text of the specification decodes to
a document with one statement, with action list `["*"]`, and `analyzeJSONPolicy` on
that text returns exactly one finding, with rule `allow_action_wildcard`. -/
theorem round_trip_single_wildcard_finding
    (unmarshal : String → Except String policyDoc) (raw file blockRef : String) (rng : Range)
    (doc : policyDoc) (st : policyStmt)
    (hraw : TrimSpace raw ≠ "") (hdoc : unmarshal (TrimSpace raw) = .ok doc)
    (hone : doc.Statement = [st]) (hallow : EqualFold st.Effect "Allow" = true)
    (hact : ∃ v ∈ st.Action, TrimSpace (ToLower v) = "*" ∨ TrimSpace (ToLower v) = "*:*" ∨
      HasSuffix (TrimSpace (ToLower v)) ":*" = true)
    (hres : ∀ v ∈ st.Resource, TrimSpace v ≠ "*") :
    (∃ f : Finding,
      analyzeJSONPolicy unmarshal raw file blockRef rng = [f] ∧
      f.Rule = "allow_action_wildcard") ∧
    (∃ (d : policyDoc) (s : policyStmt),
      jsonUnmarshal roundTripText = .ok d ∧ d.Statement = [s] ∧ s.Action = ["*"]) ∧
    (∃ f : Finding,
      analyzeJSONPolicy jsonUnmarshal roundTripText file blockRef rng = [f] ∧
      f.Rule = "allow_action_wildcard") := by
  have hstar : hasStar st.Resource = false := by
    cases h : hasStar st.Resource with
    | false => rfl
    | true =>
      obtain ⟨v, hv, hv2⟩ := (hasStar_iff _).mp h
      exact absurd hv2 (hres v hv)
  exact ⟨single_statement_single_finding unmarshal raw file blockRef rng doc st hraw hdoc hone
      hallow ((hasWildcard_iff _).mpr hact) hstar,
    ⟨_, roundTripStmt, jsonUnmarshal_roundTripText, rfl, rfl⟩,
    analyzeJSONPolicy_roundTripText file blockRef rng⟩

set_option maxRecDepth 20000 in
/-- C11 at the policy text of the specification, with the decoder model. -/
theorem round_trip_single_wildcard_finding_witness :
    TrimSpace roundTripText ≠ "" ∧
    jsonUnmarshal (TrimSpace roundTripText) =
      .ok { Version := "2012-10-17", Statement := [roundTripStmt] } ∧
    EqualFold roundTripStmt.Effect "Allow" = true ∧
    ∃ f : Finding,
      analyzeJSONPolicy jsonUnmarshal roundTripText "main.tf" "resource.aws_iam_policy.p"
        sampleRange = [f] ∧
      f.Rule = "allow_action_wildcard" :=
  ⟨by decide, by rfl, by decide,
    (round_trip_single_wildcard_finding jsonUnmarshal roundTripText "main.tf"
      "resource.aws_iam_policy.p" sampleRange
      { Version := "2012-10-17", Statement := [roundTripStmt] } roundTripStmt
      (by decide) (by rfl) rfl (by decide) ⟨"*", by decide, by decide⟩ (by decide)).1⟩

/-- What `strOrList.UnmarshalJSON` does on each kind of JSON value: it never returns
an error; a string gives the list of that string; an array of strings gives those
strings in order; a number, a boolean and an object leave the value as it was, and so
does an array with an element that is a number, a boolean, an array or an object; a
null gives the list of the empty string. -/
theorem strOrList_UnmarshalJSON_cases (s : strOrList) :
    (∀ b : JSONValue, (strOrList.UnmarshalJSON s b).2 = none) ∧
    (∀ t : String, strOrList.UnmarshalJSON s (.string t) = ([t], none)) ∧
    (∀ ts : List String,
      strOrList.UnmarshalJSON s (.array (ts.map JSONValue.string)) = (ts, none)) ∧
    (∀ t : String, strOrList.UnmarshalJSON s (.number t) = (s, none)) ∧
    (∀ t : Bool, strOrList.UnmarshalJSON s (.bool t) = (s, none)) ∧
    (∀ ms : List (String × JSONValue), strOrList.UnmarshalJSON s (.object ms) = (s, none)) ∧
    (∀ (pre post : List JSONValue) (j : JSONValue),
      (jsonKind j ≠ "string" ∧ jsonKind j ≠ "null") →
      strOrList.UnmarshalJSON s (.array (pre ++ j :: post)) = (s, none)) ∧
    strOrList.UnmarshalJSON s .null = ([""], none) := by
  have helems : ∀ ts : List String,
      unmarshalStringElems (ts.map JSONValue.string) = .ok ts := by
    intro ts
    induction ts with
    | nil => rfl
    | cons t ts ih => simp [unmarshalStringElems, unmarshalString, ih]
  have hbad : ∀ (pre post : List JSONValue) (j : JSONValue),
      (jsonKind j ≠ "string" ∧ jsonKind j ≠ "null") →
      ∃ e, unmarshalStringElems (pre ++ j :: post) = .error e := by
    intro pre post j hj
    induction pre with
    | nil =>
      cases j with
      | string t => exact absurd rfl hj.1
      | null => exact absurd rfl hj.2
      | _ => exact ⟨_, rfl⟩
    | cons p pre ih =>
      obtain ⟨e, he⟩ := ih
      cases p with
      | string t => exact ⟨e, by simp [unmarshalStringElems, unmarshalString, he]⟩
      | null => exact ⟨e, by simp [unmarshalStringElems, unmarshalString, he]⟩
      | _ => exact ⟨_, rfl⟩
  refine ⟨?_, ?_, ?_, ?_, ?_, ?_, ?_, rfl⟩
  · intro b
    unfold strOrList.UnmarshalJSON
    split
    · rfl
    · split <;> rfl
  · intro t; rfl
  · intro ts
    simp [strOrList.UnmarshalJSON, unmarshalString, unmarshalStrings, helems]
  · intro t; rfl
  · intro t; rfl
  · intro ms; rfl
  · intro pre post j hj
    obtain ⟨e, he⟩ := hbad pre post j hj
    simp [strOrList.UnmarshalJSON, unmarshalString, unmarshalStrings, he]

set_option maxRecDepth 20000 in
/-- The JSON value of the policy text with `"Action":null`. -/
theorem parseJSON_nullActionText :
    parseJSON nullActionText =
      some (.object [("Statement",
        .array [.object [("Effect", .string "Allow"), ("Action", .null)]])]) := by
  rfl

set_option maxRecDepth 20000 in
/-- The decoder model on the policy text with `"Action":null`. -/
theorem jsonUnmarshal_nullActionText :
    jsonUnmarshal nullActionText =
      .ok { Version := "",
            Statement := [{ zeroStmt with Effect := "Allow", Action := [""] }] } := by
  rfl

/-- C12, failing input: a JSON null is neither a string nor an array of strings, and
`strOrList.UnmarshalJSON` does not leave the field empty for it: the field becomes
the list of one empty string.  A null element of an array becomes an empty string.
The policy text with `"Action":null` decodes, with the decoder model, to a statement
whose action list is that one-element list. -/
theorem unmarshal_null_fills_field :
    strOrList.UnmarshalJSON [] .null = ([""], none) ∧
    strOrList.UnmarshalJSON [] (.array [.null]) = ([""], none) ∧
    strOrList.UnmarshalJSON [] (.array [.string "s3:GetObject", .null]) =
      (["s3:GetObject", ""], none) ∧
    strOrList.UnmarshalJSON [] (.number "5") = ([], none) ∧
    parseJSON nullActionText =
      some (.object [("Statement",
        .array [.object [("Effect", .string "Allow"), ("Action", .null)]])]) ∧
    jsonUnmarshal nullActionText =
      .ok { Version := "",
            Statement := [{ zeroStmt with Effect := "Allow", Action := [""] }] } :=
  ⟨rfl, rfl, rfl, rfl, parseJSON_nullActionText, jsonUnmarshal_nullActionText⟩

/-! ## Blocks that add nothing -/

/-- C13: a top-level `resource` block that has no `policy` attribute, or whose first
label is not one of the five resource types of the allow-list, adds no finding,
whatever its labels, other attributes and nested blocks are, and whatever the decoder
does. -/
theorem no_finding_without_policy_or_outside_allow_list
    (unmarshal : String → Except String policyDoc) (path : String) (blk : Block)
    (htyp : blk.Typ = "resource")
    (h : blk.attr "policy" = none ∨
      ∀ t : String, blk.Labels.head? = some t →
        t ≠ "aws_iam_policy" ∧ t ≠ "aws_iam_role_policy" ∧ t ≠ "aws_iam_user_policy" ∧
        t ≠ "aws_iam_group_policy" ∧ t ≠ "aws_s3_bucket_policy") :
    blockFindings unmarshal path blk = some [] := by
  unfold blockFindings
  rw [if_pos htyp]
  rcases hl : blk.Labels with _ | ⟨rType, _ | ⟨rName, rest⟩⟩
  · rfl
  · rfl
  · rcases h with h | h
    · simp only [h]
      split <;> rfl
    · have ht := h rType (by rw [hl]; rfl)
      have hmap : resourceTypesWithPolicyJSON rType = false := by
        simp [resourceTypesWithPolicyJSON, ht.1, ht.2.1, ht.2.2.1, ht.2.2.2.1, ht.2.2.2.2]
      simp [hmap]

set_option maxRecDepth 20000 in
/-- C13 at sample inputs: an `aws_instance` resource with a policy text and a nested
block, and an `aws_iam_policy` resource without a `policy` attribute, add nothing. -/
theorem no_finding_without_policy_or_outside_allow_list_witness :
    sampleInstanceResource.Typ = "resource" ∧
    sampleInstanceResource.Labels.head? = some "aws_instance" ∧
    samplePolicyFreeResource.attr "policy" = none ∧
    blockFindings jsonUnmarshal "main.tf" sampleInstanceResource = some [] ∧
    blockFindings jsonUnmarshal "main.tf" samplePolicyFreeResource = some [] :=
  ⟨rfl, rfl, rfl,
    no_finding_without_policy_or_outside_allow_list jsonUnmarshal "main.tf"
      sampleInstanceResource rfl
      (Or.inr (fun t ht => by
        have h : t = "aws_instance" := by
          simpa [sampleInstanceResource, Block.Labels] using ht.symm
        subst h
        decide)),
    no_finding_without_policy_or_outside_allow_list jsonUnmarshal "main.tf"
      samplePolicyFreeResource rfl (Or.inl rfl)⟩

/-! ## The two extraction paths side by side -/

/-- The rule part of the two paths is the same: for the same effect, action list and
resource list, the wildcard rule identifiers that the loop body of the native path
appends are those of the findings of a decoded statement. -/
theorem wildcard_rules_of_appends (file blockRef jfile jref : String) (rng : Range)
    (i : Nat) (nst : Block) (st : policyStmt) (effect : String)
    (actions notActions resources notResources : List String) (stId : String)
    (heff : st.Effect = effect) (hact : st.Action = actions)
    (hres : st.Resource = resources) :
    ((statementAppends file blockRef nst effect actions notActions resources notResources
        stId).map (fun f => f.Rule)).filter
        (fun rule => rule = "allow_action_wildcard" ∨ rule = "allow_resource_star") =
      (policyStmtFindings jfile jref rng i st).map (fun f => f.Rule) := by
  unfold statementAppends policyStmtFindings
  rw [heff, hact, hres]
  by_cases he : EqualFold effect "Allow" = true <;>
  by_cases hw : hasWildcard actions = true <;>
  by_cases hs : hasStar resources = true <;>
  by_cases hu : (stmtUnknown nst actions resources || decide (notActions.length > 0) ||
      decide (notResources.length > 0)) = true <;>
  simp [he, hw, hs, hu, List.filter_cons]

/-- C14, failing input: the statement block
`statement { sid = "Wide"  effect = "Allow"  actions = ["s3:*"]  resources = ["*"] }`,
as the parser yields it, and the policy text with one statement of effect `Allow`,
action list `["s3:*"]` and resource list `["*"]`.  `analyzeJSONPolicy` gives the rule
identifiers `allow_action_wildcard` and `allow_resource_star` for the decoded
statement; `analyzeIAMPolicyDocumentBlock` gives neither for the native statement,
whose quoted effect, actions and resources the resolver does not accept. -/
theorem native_quoted_statement_differs_from_json :
    sampleQuotedStatement.Typ = "statement" ∧
    (∃ attr : Attribute, sampleQuotedStatement.attr "effect" = some attr ∧
      attr.Expr = .TemplateExpr [.LiteralValueExpr (.string "Allow")]) ∧
    (∃ attr : Attribute, sampleQuotedStatement.attr "actions" = some attr ∧
      attr.Expr = .TupleConsExpr [.TemplateExpr [.LiteralValueExpr (.string "s3:*")]]) ∧
    (∃ attr : Attribute, sampleQuotedStatement.attr "resources" = some attr ∧
      attr.Expr = .TupleConsExpr [.TemplateExpr [.LiteralValueExpr (.string "*")]]) ∧
    jsonUnmarshal (TrimSpace sampleWideText) =
      .ok { Version := "", Statement := [sampleWideStmt] } ∧
    sampleWideStmt.Effect = "Allow" ∧ sampleWideStmt.Action = ["s3:*"] ∧
    sampleWideStmt.Resource = ["*"] ∧
    (analyzeJSONPolicy jsonUnmarshal sampleWideText "main.tf" "resource.aws_iam_policy.p"
        sampleRange).map (fun f => f.Rule) =
      ["allow_action_wildcard", "allow_resource_star"] ∧
    (analyzeIAMPolicyDocumentBlock (documentOf sampleQuotedStatement) "main.tf"
        "data.aws_iam_policy_document.doc").map
        (fun out => (out.map (fun f => f.Rule)).filter
          (fun rule => rule = "allow_action_wildcard" ∨ rule = "allow_resource_star")) =
      some [] ∧
    (analyzeIAMPolicyDocumentBlock (documentOf sampleQuotedStatement) "main.tf"
        "data.aws_iam_policy_document.doc").map (fun out => out.map (fun f => f.Rule)) =
      some ["needs_manual_review"] := by
  refine ⟨rfl, ⟨_, rfl, rfl⟩, ⟨_, rfl, rfl⟩, ⟨_, rfl, rfl⟩, jsonUnmarshal_samples.2.2.2,
    rfl, rfl, rfl, analyzeJSONPolicy_samples.2, by decide, by decide⟩

/-! ## Statement order, and what every finding carries -/

theorem policyStmtLoop_flatMap (file blockRef : String) (rng : Range)
    (sts : List policyStmt) :
    ∀ (i : Nat) (out : List Finding),
      policyStmtLoop file blockRef rng i sts out =
        out ++ (sts.enumFrom i).flatMap
          (fun p => policyStmtFindings file blockRef rng p.1 p.2) := by
  induction sts with
  | nil => intro i out; simp [policyStmtLoop]
  | cons st rest ih =>
    intro i out
    simp only [policyStmtLoop, ih, List.enumFrom_cons, List.flatMap_cons, List.append_assoc]

/-- Every finding of one decoded statement has scanner `terraform`, severity `HIGH`,
and the file and block reference given to the analysis. -/
theorem policyStmtFindings_fields (file blockRef : String) (rng : Range) (i : Nat)
    (st : policyStmt) :
    ∀ f ∈ policyStmtFindings file blockRef rng i st,
      f.Scanner = "terraform" ∧ f.Severity = "HIGH" ∧ f.File = file ∧
      f.BlockRef = blockRef ∧ f.StatementID = nonEmpty st.Sid ("#" ++ toString (i + 1)) := by
  intro f hf
  unfold policyStmtFindings at hf
  by_cases he : EqualFold st.Effect "Allow" = true <;>
  by_cases hw : hasWildcard st.Action = true <;>
  by_cases hs : hasStar st.Resource = true <;>
  simp [he, hw, hs] at hf
  all_goals (first | (rcases hf with hf | hf <;> subst hf <;> simp) | (subst hf; simp))

/-- Every finding that the loop body of the native path appends has scanner
`terraform`, severity `high` in lower case, the file and block reference given to the
analysis, and the statement identifier of the iteration. -/
theorem statementAppends_fields (file blockRef : String) (st : Block) (effect : String)
    (actions notActions resources notResources : List String) (stId : String) :
    ∀ f ∈ statementAppends file blockRef st effect actions notActions resources notResources
        stId,
      f.Scanner = "terraform" ∧ f.Severity = "high" ∧ f.File = file ∧
      f.BlockRef = blockRef ∧ f.StatementID = stId := by
  intro f hf
  unfold statementAppends at hf
  simp only [List.mem_append] at hf
  rcases hf with hf | hf
  · split at hf
    · simp only [List.mem_append] at hf
      rcases hf with hf | hf
      · split at hf
        · rw [List.mem_singleton] at hf
          subst hf
          exact ⟨rfl, rfl, rfl, rfl, rfl⟩
        · cases hf
      · split at hf
        · rw [List.mem_singleton] at hf
          subst hf
          exact ⟨rfl, rfl, rfl, rfl, rfl⟩
        · cases hf
    · cases hf
  · split at hf
    · rw [List.mem_singleton] at hf
      subst hf
      exact ⟨rfl, rfl, rfl, rfl, rfl⟩
    · cases hf

/-- Every finding of one nested block of a policy document block has scanner
`terraform`, severity `high` in lower case, the file and block reference given to the
analysis, and the statement identifier that `getStatementID` gives. -/
theorem statementFindings_fields (file blockRef : String) (st : Block) (fs : List Finding)
    (hfs : statementFindings file blockRef st = some fs) :
    ∀ f ∈ fs,
      f.Scanner = "terraform" ∧ f.Severity = "high" ∧ f.File = file ∧
      f.BlockRef = blockRef ∧
      ∃ sid : String × Bool, getStatementID st = some sid ∧
        f.StatementID = (if sid.2 then sid.1 else "") := by
  intro f hf
  by_cases ht : st.Typ = "statement"
  · obtain ⟨e, a, na, r, nr, s, _, _, _, _, _, hs, hout⟩ :=
      (statementFindings_eq_some file blockRef st ht fs).mp hfs
    rw [hout] at hf
    have h := statementAppends_fields file blockRef st e a na r nr _ f hf
    exact ⟨h.1, h.2.1, h.2.2.1, h.2.2.2.1, s, hs, h.2.2.2.2⟩
  · unfold statementFindings at hfs
    rw [if_pos ht] at hfs
    simp only [Option.some.injEq] at hfs
    rw [← hfs] at hf
    cases hf

/-- A finding of the flattened chunks of a loop belongs to the chunk of one of the
items. -/
theorem mem_flatten_of_chunks {α : Type} (R : α → List Finding → Prop) (items : List α)
    (chunks : List (List Finding)) (hall : List.Forall₂ R items chunks) :
    ∀ f ∈ chunks.flatten, ∃ (x : α) (fs : List Finding), x ∈ items ∧ R x fs ∧ f ∈ fs := by
  induction hall with
  | nil =>
    intro f hf
    simp at hf
  | cons h _ ih =>
    intro f hf
    simp only [List.flatten_cons, List.mem_append] at hf
    rcases hf with hf | hf
    · exact ⟨_, _, List.mem_cons_self _ _, h, hf⟩
    · obtain ⟨x, fs, hx, hr, hm⟩ := ih f hf
      exact ⟨x, fs, List.mem_cons_of_mem _ hx, hr, hm⟩

/-- Every finding of `analyzeIAMPolicyDocumentBlock` is a finding of one of the
nested blocks. -/
theorem analyzeIAMPolicyDocumentBlock_mem (b : Block) (file blockRef : String)
    (out : List Finding) (hout : analyzeIAMPolicyDocumentBlock b file blockRef = some out) :
    ∀ f ∈ out, ∃ (st : Block) (fs : List Finding), st ∈ b.Body.Blocks ∧
      statementFindings file blockRef st = some fs ∧ f ∈ fs := by
  intro f hf
  unfold analyzeIAMPolicyDocumentBlock at hout
  obtain ⟨chunks, hall, hres⟩ := (statementLoop_eq_some file blockRef b.Body.Blocks out).mp hout
  rw [hres] at hf
  exact mem_flatten_of_chunks _ _ _ hall f hf

/-- Every finding of `analyzeJSONPolicy` has severity `HIGH`, scanner `terraform` and
the block reference given to the analysis. -/
theorem analyzeJSONPolicy_fields (unmarshal : String → Except String policyDoc)
    (raw file blockRef : String) (rng : Range) :
    ∀ f ∈ analyzeJSONPolicy unmarshal raw file blockRef rng,
      f.Severity = "HIGH" ∧ f.Scanner = "terraform" ∧ f.BlockRef = blockRef := by
  intro f hf
  unfold analyzeJSONPolicy at hf
  simp only at hf
  split at hf
  · cases hf
  · split at hf
    · rw [List.mem_singleton] at hf
      subst hf
      exact ⟨rfl, rfl, rfl⟩
    · rw [policyStmtLoop_flatMap, List.nil_append, List.mem_flatMap] at hf
      obtain ⟨p, _, hp⟩ := hf
      have h := policyStmtFindings_fields file blockRef rng p.1 p.2 f hp
      exact ⟨h.2.1, h.1, h.2.2.2.1⟩

/-- C15, failing input: a `statement` block whose only attribute is `actions = []`.
The resolver accepts the empty tuple with the empty list as result, no exclusion list
is present and no attribute is unresolvable, yet the `unknown` flag is set and the
statement gets the `needs_manual_review` finding: the flag tests the length of the
resolved list, not whether the attribute was resolved. -/
theorem empty_actions_list_flagged :
    sampleEmptyActionsStatement.Typ = "statement" ∧
    (∃ attr : Attribute, sampleEmptyActionsStatement.attr "actions" = some attr ∧
      attr.Expr = .TupleConsExpr [] ∧ exprToStrings attr.Expr = some ([], true)) ∧
    sampleEmptyActionsStatement.attr "resources" = none ∧
    sampleEmptyActionsStatement.attr "not_actions" = none ∧
    sampleEmptyActionsStatement.attr "not_resources" = none ∧
    stmtStrings sampleEmptyActionsStatement "actions" = some [] ∧
    stmtStrings sampleEmptyActionsStatement "resources" = some [] ∧
    stmtUnknown sampleEmptyActionsStatement [] [] = true ∧
    (analyzeIAMPolicyDocumentBlock (documentOf sampleEmptyActionsStatement) "main.tf"
        "data.aws_iam_policy_document.doc").map (fun out => out.map (fun f => f.Rule)) =
      some ["needs_manual_review"] := by
  refine ⟨rfl, ⟨_, rfl, rfl, rfl⟩, rfl, rfl, rfl, by decide, by decide, by decide, by decide⟩

/-- C16, failing input: every finding of `analyzeIAMPolicyDocumentBlock` has the
severity `high` in lower case, for all three rules of the native path, while every
finding of `analyzeJSONPolicy` and the `unknown_dynamic_policy` finding have the
severity `HIGH`; the scanner name is `terraform` on both paths.  The statement block
written with quoted strings gets one `needs_manual_review` finding of severity
`high`; the document block built by hand, whose attributes the resolver accepts, gets
findings of all three rules, of severity `high`. -/
theorem native_findings_severity_lower_case :
    (∀ (b : Block) (file blockRef : String) (out : List Finding),
      analyzeIAMPolicyDocumentBlock b file blockRef = some out →
      ∀ f ∈ out, f.Severity = "high" ∧ f.Severity ≠ "HIGH" ∧ f.Scanner = "terraform") ∧
    (∀ (unmarshal : String → Except String policyDoc) (raw file blockRef : String)
        (rng : Range),
      ∀ f ∈ analyzeJSONPolicy unmarshal raw file blockRef rng,
        f.Severity = "HIGH" ∧ f.Scanner = "terraform") ∧
    (∀ (path blockRef : String) (rng : Range),
      (unknownDynamicPolicyFinding path blockRef rng).Severity = "HIGH" ∧
      (unknownDynamicPolicyFinding path blockRef rng).Scanner = "terraform") ∧
    (analyzeIAMPolicyDocumentBlock (documentOf sampleQuotedStatement) "main.tf"
        "data.aws_iam_policy_document.doc").map
        (fun out => out.map (fun f => (f.Rule, f.Severity))) =
      some [("needs_manual_review", "high")] ∧
    (analyzeIAMPolicyDocumentBlock sampleDocumentBlock "main.tf"
        "data.aws_iam_policy_document.doc").map
        (fun out => out.map (fun f => (f.Rule, f.Severity))) =
      some [("needs_manual_review", "high"), ("allow_action_wildcard", "high"),
        ("allow_resource_star", "high")] := by
  refine ⟨?_, ?_, ?_, by decide, by decide⟩
  · intro b file blockRef out hout f hf
    obtain ⟨st, fs, _, hfs, hm⟩ := analyzeIAMPolicyDocumentBlock_mem b file blockRef out hout f hf
    have h := statementFindings_fields file blockRef st fs hfs f hm
    refine ⟨h.2.1, ?_, h.1⟩
    rw [h.2.1]
    decide
  · intro unmarshal raw file blockRef rng f hf
    have h := analyzeJSONPolicy_fields unmarshal raw file blockRef rng f hf
    exact ⟨h.1, h.2.1⟩
  · intro path blockRef rng
    exact ⟨rfl, rfl⟩

/-! ## Block references -/

theorem dotted_join_injective (a b c d : List Char) (ha : '.' ∉ a) (hc : '.' ∉ c)
    (h : a ++ '.' :: b = c ++ '.' :: d) : a = c ∧ b = d := by
  induction a generalizing c with
  | nil =>
    cases c with
    | nil => exact ⟨rfl, by simpa using h⟩
    | cons y c =>
      simp only [List.nil_append, List.cons_append, List.cons.injEq] at h
      exact absurd (h.1 ▸ List.mem_cons_self _ _) hc
  | cons x a ih =>
    cases c with
    | nil =>
      simp only [List.nil_append, List.cons_append, List.cons.injEq] at h
      exact absurd (h.1 ▸ List.mem_cons_self _ _) ha
    | cons y c =>
      simp only [List.cons_append, List.cons.injEq] at h
      have hr := ih c (fun hm => ha (List.mem_cons_of_mem _ hm))
        (fun hm => hc (List.mem_cons_of_mem _ hm)) h.2
      exact ⟨by rw [h.1, hr.1], hr.2⟩

theorem reference_join_injective (pre t1 n1 t2 n2 : String)
    (h1 : '.' ∉ t1.data) (h2 : '.' ∉ t2.data)
    (h : pre ++ t1 ++ "." ++ n1 = pre ++ t2 ++ "." ++ n2) : t1 = t2 ∧ n1 = n2 := by
  have hd := congrArg String.data h
  simp only [String.data_append, List.append_assoc] at hd
  have hd2 := List.append_cancel_left hd
  have hr := dotted_join_injective t1.data n1.data t2.data n2.data h1 h2 (by simpa using hd2)
  exact ⟨String.ext hr.1, String.ext hr.2⟩


/-- Every finding that a top-level block adds carries the block reference of the
block. -/
theorem blockFindings_blockRef (unmarshal : String → Except String policyDoc) (path : String)
    (blk : Block) (out : List Finding) (hout : blockFindings unmarshal path blk = some out) :
    ∀ f ∈ out, blockRef blk = some f.BlockRef := by
  intro f hf
  unfold blockFindings at hout
  unfold blockRef
  by_cases hr : blk.Typ = "resource"
  · rw [if_pos hr] at hout
    rw [if_pos hr]
    rcases hl : blk.Labels with _ | ⟨rType, _ | ⟨rName, rest⟩⟩
    · rw [hl] at hout
      simp only [Option.some.injEq] at hout
      rw [← hout] at hf
      cases hf
    · rw [hl] at hout
      simp only [Option.some.injEq] at hout
      rw [← hout] at hf
      cases hf
    · rw [hl] at hout
      simp only at hout
      split at hout
      · split at hout
        · split at hout
          · cases hout
          · split at hout
            · simp only [Option.some.injEq] at hout
              rw [← hout] at hf
              have h := analyzeJSONPolicy_fields _ _ _ _ _ f hf
              rw [h.2.2]
            · simp only [Option.some.injEq] at hout
              rw [← hout, List.mem_singleton] at hf
              subst hf
              rfl
        · simp only [Option.some.injEq] at hout
          rw [← hout] at hf
          cases hf
      · simp only [Option.some.injEq] at hout
        rw [← hout] at hf
        cases hf
  · rw [if_neg hr] at hout
    rw [if_neg hr]
    by_cases hd : blk.Typ = "data"
    · rw [if_pos hd] at hout
      rw [if_pos hd]
      rcases hl : blk.Labels with _ | ⟨dType, _ | ⟨dName, rest⟩⟩
      · rw [hl] at hout
        simp only [Option.some.injEq] at hout
        rw [← hout] at hf
        cases hf
      · rw [hl] at hout
        simp only [Option.some.injEq] at hout
        rw [← hout] at hf
        cases hf
      · rw [hl] at hout
        simp only at hout
        split at hout
        · obtain ⟨st, fs, _, hfs, hm⟩ := analyzeIAMPolicyDocumentBlock_mem _ _ _ out hout f hf
          have h := statementFindings_fields _ _ st fs hfs f hm
          rw [h.2.2.2.1]
        · simp only [Option.some.injEq] at hout
          rw [← hout] at hf
          cases hf
    · rw [if_neg hd] at hout
      simp only [Option.some.injEq] at hout
      rw [← hout] at hf
      cases hf

/-- C17, as stated, fails: two resource blocks whose label lists differ in a third
label, and two data blocks whose labels place a dot differently, have the same block
reference, and the findings of the first pair carry that same reference. -/
theorem block_reference_collision_counterexample :
    (labelled "resource" ["aws_iam_policy", "p"]).Labels ≠
      (labelled "resource" ["aws_iam_policy", "p", "old"]).Labels ∧
    blockRef (labelled "resource" ["aws_iam_policy", "p"]) =
      some "resource.aws_iam_policy.p" ∧
    blockRef (labelled "resource" ["aws_iam_policy", "p", "old"]) =
      some "resource.aws_iam_policy.p" ∧
    (labelled "data" ["a.b", "c"]).Labels ≠ (labelled "data" ["a", "b.c"]).Labels ∧
    blockRef (labelled "data" ["a.b", "c"]) = some "data.a.b.c" ∧
    blockRef (labelled "data" ["a", "b.c"]) = some "data.a.b.c" ∧
    (blockFindings sampleUnmarshal "main.tf"
        (policyResourceWith ["aws_iam_policy", "p"] sampleCall)).map
          (fun out => out.map (fun f => f.BlockRef)) =
      some ["resource.aws_iam_policy.p"] ∧
    (blockFindings sampleUnmarshal "main.tf"
        (policyResourceWith ["aws_iam_policy", "p", "old"] sampleCall)).map
          (fun out => out.map (fun f => f.BlockRef)) =
      some ["resource.aws_iam_policy.p"] := by
  refine ⟨by decide, by decide, by decide, by decide, by decide, by decide, by decide,
    by decide⟩

/-- C17, amended: the block reference is a function of the type tag and the first
two labels of the block, and every finding of the block carries it; two analyzed
blocks have different references when their type tags differ, and when their first
labels contain no dot and their first or second labels differ. -/
theorem block_reference_injective_without_dots
    (b1 b2 : Block) (r1 r2 : String)
    (h1 : blockRef b1 = some r1) (h2 : blockRef b2 = some r2) :
    (b1.Typ ≠ b2.Typ → r1 ≠ r2) ∧
    (∀ (t1 n1 t2 n2 : String) (rest1 rest2 : List String),
      b1.Labels = t1 :: n1 :: rest1 → b2.Labels = t2 :: n2 :: rest2 →
      '.' ∉ t1.data → '.' ∉ t2.data → (t1 ≠ t2 ∨ n1 ≠ n2) → r1 ≠ r2) ∧
    (b1.Typ = b2.Typ → b1.Labels.take 2 = b2.Labels.take 2 → r1 = r2) ∧
    (∀ (unmarshal : String → Except String policyDoc) (path : String) (out : List Finding),
      blockFindings unmarshal path b1 = some out → ∀ f ∈ out, f.BlockRef = r1) := by
  have shape : ∀ (b : Block) (r : String), blockRef b = some r →
      ∃ (pre t n : String) (rest : List String),
        ((b.Typ = "resource" ∧ pre = "resource.") ∨
          (b.Typ ≠ "resource" ∧ b.Typ = "data" ∧ pre = "data.")) ∧
        b.Labels = t :: n :: rest ∧ r = pre ++ t ++ "." ++ n := by
    intro b r h
    unfold blockRef at h
    by_cases hr : b.Typ = "resource"
    · rw [if_pos hr] at h
      rcases hl : b.Labels with _ | ⟨t, _ | ⟨n, rest⟩⟩
      · rw [hl] at h; cases h
      · rw [hl] at h; cases h
      · rw [hl] at h
        simp only [Option.some.injEq] at h
        exact ⟨"resource.", t, n, rest, Or.inl ⟨hr, rfl⟩, rfl, h.symm⟩
    · rw [if_neg hr] at h
      by_cases hd : b.Typ = "data"
      · rw [if_pos hd] at h
        rcases hl : b.Labels with _ | ⟨t, _ | ⟨n, rest⟩⟩
        · rw [hl] at h; cases h
        · rw [hl] at h; cases h
        · rw [hl] at h
          simp only [Option.some.injEq] at h
          exact ⟨"data.", t, n, rest, Or.inr ⟨hr, hd, rfl⟩, rfl, h.symm⟩
      · rw [if_neg hd] at h
        cases h
  have hhead : ∀ (t n u m : String),
      "resource." ++ t ++ "." ++ n ≠ "data." ++ u ++ "." ++ m := by
    intro t n u m h
    have hd := congrArg String.data h
    simp only [String.data_append, List.append_assoc] at hd
    have hx : ("resource.".data ++ (t.data ++ (".".data ++ n.data))).head? =
        ("data.".data ++ (u.data ++ (".".data ++ m.data))).head? := by rw [hd]
    simp [show "resource.".data = ['r', 'e', 's', 'o', 'u', 'r', 'c', 'e', '.'] from rfl,
      show "data.".data = ['d', 'a', 't', 'a', '.'] from rfl] at hx
  obtain ⟨p1, t1, n1, rest1, hk1, hl1, hr1⟩ := shape b1 r1 h1
  obtain ⟨p2, t2, n2, rest2, hk2, hl2, hr2⟩ := shape b2 r2 h2
  refine ⟨?_, ?_, ?_, ?_⟩
  · intro hne heq
    rw [hr1, hr2] at heq
    rcases hk1 with ⟨ha, hp⟩ | ⟨ha, ha2, hp⟩ <;> rcases hk2 with ⟨hb, hq⟩ | ⟨hb, hb2, hq⟩
    · exact hne (ha.trans hb.symm)
    · subst hp; subst hq
      exact hhead _ _ _ _ heq
    · subst hp; subst hq
      exact hhead _ _ _ _ heq.symm
    · exact hne (ha2.trans hb2.symm)
  · intro u1 m1 u2 m2 q1 q2 hq1 hq2 hd1 hd2 hne heq
    rw [hl1] at hq1
    rw [hl2] at hq2
    simp only [List.cons.injEq] at hq1 hq2
    obtain ⟨e1, e2, _⟩ := hq1
    obtain ⟨e3, e4, _⟩ := hq2
    subst e1; subst e2; subst e3; subst e4
    rw [hr1, hr2] at heq
    rcases hk1 with ⟨ha, hp⟩ | ⟨ha, ha2, hp⟩ <;> rcases hk2 with ⟨hb, hq⟩ | ⟨hb, hb2, hq⟩
    · subst hp; subst hq
      have h := reference_join_injective _ _ _ _ _ hd1 hd2 heq
      rcases hne with hne | hne
      · exact hne h.1
      · exact hne h.2
    · subst hp; subst hq
      exact hhead _ _ _ _ heq
    · subst hp; subst hq
      exact hhead _ _ _ _ heq.symm
    · subst hp; subst hq
      have h := reference_join_injective _ _ _ _ _ hd1 hd2 heq
      rcases hne with hne | hne
      · exact hne h.1
      · exact hne h.2
  · intro htyp hlab
    rw [hl1, hl2] at hlab
    simp only [List.take_succ_cons, List.take_zero, List.cons.injEq, and_true] at hlab
    have hp : p1 = p2 := by
      rcases hk1 with ⟨ha, hp⟩ | ⟨ha, ha2, hp⟩ <;> rcases hk2 with ⟨hb, hq⟩ | ⟨hb, hb2, hq⟩
      · rw [hp, hq]
      · exact absurd (htyp ▸ ha) hb
      · exact absurd (htyp ▸ hb) ha
      · rw [hp, hq]
    rw [hr1, hr2, hp, hlab.1, hlab.2]
  · intro unmarshal path out hout f hf
    have h := blockFindings_blockRef unmarshal path b1 out hout f hf
    rw [h1] at h
    exact (Option.some.inj h).symm

/-- C17, amended, at sample inputs: a resource block and a data block with the same
labels, and two resource blocks with different names, have different references. -/
theorem block_reference_injective_without_dots_witness :
    blockRef (labelled "resource" ["aws_iam_policy", "p"]) = some "resource.aws_iam_policy.p" ∧
    blockRef (labelled "data" ["aws_iam_policy", "p"]) = some "data.aws_iam_policy.p" ∧
    blockRef (labelled "resource" ["aws_iam_policy", "q"]) = some "resource.aws_iam_policy.q" ∧
    "resource.aws_iam_policy.p" ≠ "data.aws_iam_policy.p" ∧
    "resource.aws_iam_policy.p" ≠ "resource.aws_iam_policy.q" :=
  ⟨rfl, rfl, rfl,
    (block_reference_injective_without_dots (labelled "resource" ["aws_iam_policy", "p"])
      (labelled "data" ["aws_iam_policy", "p"]) _ _ rfl rfl).1 (by decide),
    (block_reference_injective_without_dots (labelled "resource" ["aws_iam_policy", "p"])
      (labelled "resource" ["aws_iam_policy", "q"]) _ _ rfl rfl).2.1
      "aws_iam_policy" "p" "aws_iam_policy" "q" [] [] rfl rfl (by decide) (by decide)
      (Or.inr (by decide))⟩

/-! ## Effect and statement identifier of a native statement -/

/-- C18, failing input: the statement block
`statement { effect = "Allow"  actions = ["*"]  resources = ["*"] }`, as the parser
yields it.  Its `effect` attribute is a constant template, a template whose one part
is the string literal `Allow`; the resolver does not accept it, and the effect of the
statement is empty, not `Allow`; so it is for every quoted string.  On
`statement { effect = true }`, whose `effect`
attribute is a primitive literal, the analysis panics, taking the string of the
boolean.  The statement whose `effect` is the tuple `["Allow"]` has an empty effect
and gets no wildcard finding, as the claim says. -/
theorem quoted_effect_left_empty :
    sampleAllStatement.Typ = "statement" ∧
    (∃ attr : Attribute, sampleAllStatement.attr "effect" = some attr ∧
      attr.Expr = .TemplateExpr [.LiteralValueExpr (.string "Allow")] ∧
      exprToStrings attr.Expr = some ([], false)) ∧
    stmtEffect sampleAllStatement = some "" ∧
    (analyzeIAMPolicyDocumentBlock (documentOf sampleAllStatement) "main.tf"
        "data.aws_iam_policy_document.doc").map (fun out => out.map (fun f => f.Rule)) =
      some ["needs_manual_review"] ∧
    (∃ attr : Attribute, sampleBoolEffectStatement.attr "effect" = some attr ∧
      attr.Expr = .LiteralValueExpr (.bool true) ∧
      (Value.bool true).IsPrimitiveType = true ∧ exprToStrings attr.Expr = none) ∧
    stmtEffect sampleBoolEffectStatement = none ∧
    analyzeIAMPolicyDocumentBlock (documentOf sampleBoolEffectStatement) "main.tf"
      "data.aws_iam_policy_document.doc" = none ∧
    (∃ attr : Attribute, sampleListEffectStatement.attr "effect" = some attr ∧
      attr.Expr = .TupleConsExpr [.TemplateExpr [.LiteralValueExpr (.string "Allow")]]) ∧
    stmtEffect sampleListEffectStatement = some "" ∧
    (analyzeIAMPolicyDocumentBlock (documentOf sampleListEffectStatement) "main.tf"
        "data.aws_iam_policy_document.doc").map (fun out => out.map (fun f => f.Rule)) =
      some ["needs_manual_review"] ∧
    (∀ (st : Block) (attr : Attribute) (s : String),
      st.attr "effect" = some attr → attr.Expr = quoted s → stmtEffect st = some "") := by
  refine ⟨rfl, ⟨_, rfl, rfl, rfl⟩, by decide, by decide, ⟨_, rfl, rfl, rfl, rfl⟩, by decide,
    by decide, ⟨_, rfl, rfl⟩, by decide, by decide, ?_⟩
  intro st attr s hattr hexpr
  exact stmtEffect_quoted st attr s hattr hexpr

/-- What `getStatementID` returns: nothing without a `sid` attribute, the result of
`AsString` on the value of a primitive literal, the result of `AsString` on the
value of the literal inside a template with one part that wraps a literal, and
nothing for a template whose one part is the literal itself. -/
theorem getStatementID_cases (st : Block) :
    (st.attr "sid" = none → getStatementID st = some ("", false)) ∧
    (∀ (attr : Attribute) (v : Value), st.attr "sid" = some attr →
      attr.Expr = .LiteralValueExpr v → v.IsPrimitiveType = true →
      getStatementID st = v.AsString.map (fun s => (s, true))) ∧
    (∀ (attr : Attribute) (v : Value), st.attr "sid" = some attr →
      attr.Expr = .TemplateExpr [.TemplateWrapExpr (.LiteralValueExpr v)] →
      getStatementID st = v.AsString.map (fun s => (s, true))) ∧
    (∀ (attr : Attribute) (v : Value), st.attr "sid" = some attr →
      attr.Expr = .TemplateExpr [.LiteralValueExpr v] →
      getStatementID st = some ("", false)) := by
  refine ⟨?_, ?_, ?_, ?_⟩
  · intro h
    simp [getStatementID, h]
  · intro attr v h he hp
    cases hs : v.AsString <;> simp [getStatementID, h, he, hp, hs]
  · intro attr v h he
    cases hs : v.AsString <;> simp [getStatementID, h, he, hs]
  · intro attr v h he
    simp [getStatementID, h, he]

/-- C19, failing input: a statement block written as `sid = "Wide"`, whose `sid`
attribute is the template with the one literal part `Wide`.  `getStatementID` does
not resolve it and the finding of the statement carries the empty identifier; the
identifier is carried when the `sid` is a bare primitive literal or a template that
wraps the literal, two trees built by hand. -/
theorem quoted_sid_not_carried :
    sampleQuotedStatement.Typ = "statement" ∧
    (∃ attr : Attribute, sampleQuotedStatement.attr "sid" = some attr ∧
      attr.Expr = .TemplateExpr [.LiteralValueExpr (.string "Wide")]) ∧
    getStatementID sampleQuotedStatement = some ("", false) ∧
    (analyzeIAMPolicyDocumentBlock (documentOf sampleQuotedStatement) "main.tf"
        "data.aws_iam_policy_document.doc").map
        (fun out => out.map (fun f => (f.Rule, f.StatementID))) =
      some [("needs_manual_review", "")] ∧
    getStatementID (.mk "statement" [] (.mk [attrEntry "sid" (strLit "Wide")] [])
      sampleRange) = some ("Wide", true) ∧
    getStatementID (.mk "statement" [] (.mk [attrEntry "sid" (wrapTemplate "Wide")] [])
      sampleRange) = some ("Wide", true) := by
  refine ⟨rfl, ⟨_, rfl, rfl⟩, rfl, by decide, rfl, rfl⟩

/-! ## Order and number of the findings of a statement -/

/-- C20: on a decoded document `analyzeJSONPolicy` returns the findings of the
statements one statement after the other, in statement order, and so does
`analyzeIAMPolicyDocumentBlock` on the nested blocks, which returns exactly when the
analysis of every nested block returns; the rules of the findings of one statement
form a sublist of `allow_action_wildcard`, `allow_resource_star` in the JSON path and
of `allow_action_wildcard`, `allow_resource_star`, `needs_manual_review` in the
native path, which gives the order within a statement, each rule at most once, and
at most two and at most three findings a statement. -/
theorem findings_follow_statement_order
    (unmarshal : String → Except String policyDoc) (raw file blockRef : String) (rng : Range)
    (doc : policyDoc) (b : Block)
    (hraw : TrimSpace raw ≠ "") (hdoc : unmarshal (TrimSpace raw) = .ok doc) :
    analyzeJSONPolicy unmarshal raw file blockRef rng =
      doc.Statement.enum.flatMap (fun p => policyStmtFindings file blockRef rng p.1 p.2) ∧
    (∀ (i : Nat) (st : policyStmt),
      List.Sublist ((policyStmtFindings file blockRef rng i st).map (fun f => f.Rule))
        ["allow_action_wildcard", "allow_resource_star"] ∧
      (policyStmtFindings file blockRef rng i st).length ≤ 2) ∧
    (∀ out : List Finding,
      analyzeIAMPolicyDocumentBlock b file blockRef = some out ↔
        ∃ chunks : List (List Finding),
          List.Forall₂ (fun st fs => statementFindings file blockRef st = some fs)
            b.Body.Blocks chunks ∧
          out = chunks.flatten) ∧
    (∀ (st : Block) (fs : List Finding), statementFindings file blockRef st = some fs →
      List.Sublist (fs.map (fun f => f.Rule))
        ["allow_action_wildcard", "allow_resource_star", "needs_manual_review"] ∧
      fs.length ≤ 3) := by
  have hjson : ∀ (i : Nat) (st : policyStmt),
      List.Sublist ((policyStmtFindings file blockRef rng i st).map (fun f => f.Rule))
        ["allow_action_wildcard", "allow_resource_star"] := by
    intro i st
    unfold policyStmtFindings
    by_cases he : EqualFold st.Effect "Allow" = true <;>
    by_cases hw : hasWildcard st.Action = true <;>
    by_cases hs : hasStar st.Resource = true <;>
    simp [he, hw, hs]
  have happ : ∀ (st : Block) (effect : String) (a na r nr : List String) (stId : String),
      List.Sublist ((statementAppends file blockRef st effect a na r nr stId).map
        (fun f => f.Rule))
        ["allow_action_wildcard", "allow_resource_star", "needs_manual_review"] := by
    intro st effect a na r nr stId
    unfold statementAppends
    by_cases he : EqualFold effect "Allow" = true <;>
    by_cases hw : hasWildcard a = true <;>
    by_cases hs : hasStar r = true <;>
    by_cases hu : (stmtUnknown st a r || decide (na.length > 0) ||
        decide (nr.length > 0)) = true <;>
    simp [he, hw, hs, hu]
  have hnat : ∀ (st : Block) (fs : List Finding),
      statementFindings file blockRef st = some fs →
      List.Sublist (fs.map (fun f => f.Rule))
        ["allow_action_wildcard", "allow_resource_star", "needs_manual_review"] := by
    intro st fs hfs
    by_cases ht : st.Typ = "statement"
    · obtain ⟨e, a, na, r, nr, s, _, _, _, _, _, _, hout⟩ :=
        (statementFindings_eq_some file blockRef st ht fs).mp hfs
      rw [hout]
      exact happ st e a na r nr _
    · unfold statementFindings at hfs
      rw [if_pos ht] at hfs
      simp only [Option.some.injEq] at hfs
      rw [← hfs]
      simp
  refine ⟨?_, ?_, ?_, ?_⟩
  · simp [analyzeJSONPolicy, hraw, hdoc, policyStmtLoop_flatMap, List.enum]
  · intro i st
    refine ⟨hjson i st, ?_⟩
    have h := (hjson i st).length_le
    simpa using h
  · intro out
    exact statementLoop_eq_some file blockRef b.Body.Blocks out
  · intro st fs hfs
    refine ⟨hnat st fs hfs, ?_⟩
    have h := (hnat st fs hfs).length_le
    simpa using h

set_option maxRecDepth 20000 in
/-- C20 at the sample inputs: the sample policy gives the two findings of its second
statement, and the document block with the `Deny` statement and the `Allow`
statement written with quoted strings gives the finding of the first statement
followed by the finding of the second. -/
theorem findings_follow_statement_order_witness :
    TrimSpace samplePolicyText ≠ "" ∧
    jsonUnmarshal (TrimSpace samplePolicyText) = .ok samplePolicyDoc ∧
    analyzeJSONPolicy jsonUnmarshal samplePolicyText "main.tf" "resource.aws_iam_policy.p"
        sampleRange =
      samplePolicyDoc.Statement.enum.flatMap
        (fun p => policyStmtFindings "main.tf" "resource.aws_iam_policy.p" sampleRange
          p.1 p.2) ∧
    (∃ (first second : List Finding),
      statementFindings "main.tf" "data.aws_iam_policy_document.doc"
        sampleQuotedDenyStatement = some first ∧
      statementFindings "main.tf" "data.aws_iam_policy_document.doc"
        sampleQuotedStatement = some second ∧
      analyzeIAMPolicyDocumentBlock
        (documentWith [sampleQuotedDenyStatement, sampleQuotedStatement]) "main.tf"
        "data.aws_iam_policy_document.doc" = some (first ++ second)) :=
  have h := findings_follow_statement_order jsonUnmarshal samplePolicyText "main.tf"
    "data.aws_iam_policy_document.doc" sampleRange samplePolicyDoc
    (documentWith [sampleQuotedDenyStatement, sampleQuotedStatement])
    (by decide) (by rfl)
  have h2 := findings_follow_statement_order jsonUnmarshal samplePolicyText "main.tf"
    "resource.aws_iam_policy.p" sampleRange samplePolicyDoc
    (documentWith [sampleQuotedDenyStatement, sampleQuotedStatement])
    (by decide) (by rfl)
  ⟨by decide, by rfl, h2.1,
    ⟨_, _, rfl, rfl,
      (h.2.2.1 _).mpr ⟨[_, _], List.Forall₂.cons rfl (List.Forall₂.cons rfl List.Forall₂.nil),
        by simp⟩⟩⟩

end ScaniZard
